import Mathlib

/-!
gostatic: a shallow embedding of `main.go`.

The program is a small HTTP file server with four handlers
(`rootHandler`, `fileListHandler`, `downloadHandler`, `uploadHandler`).
Go strings are byte sequences, the response writer and the file system are
explicit state, a Go run-time panic or abort is an `Except` error, and the
goroutines of `uploadHandler` are a step function driven by an arbitrary
schedule. The library calls of the handlers (`filepath`, `net/http`,
`mime/multipart`, `os`) follow their documented behaviour on Unix.
-/

namespace Gostatic

/-! ## Go strings -/

/-- A Go string: an immutable sequence of bytes. -/
abbrev GoString := List UInt8

/-- The bytes of a string literal of the source (UTF-8, as the Go compiler stores it). -/
def lit (s : String) : GoString := s.data.flatMap String.utf8EncodeChar

/-- The path separator byte. -/
def slash : UInt8 := 47

/-- The run-time failures that end a handler without a response: the two panics the handlers
can raise, and the abort of the whole process by the runtime
(`fatal error: concurrent map writes`). -/
inductive Panic where
  | sliceBounds
  | nilDeref
  | concurrentMapWrites
  deriving DecidableEq, Repr

/-- The Go slice expression `s[i:]`: it panics when `i` exceeds `len(s)`. -/
def sliceFrom (s : GoString) (i : Nat) : Except Panic GoString :=
  if i ≤ s.length then .ok (s.drop i) else .error .sliceBounds

/-- Split a string at every occurrence of a byte satisfying `p`, as `strings.Split` does for a
single separator byte (empty pieces are kept). -/
def splitAt (p : UInt8 → Bool) : GoString → List GoString
  | [] => [[]]
  | c :: cs =>
    if p c then [] :: splitAt p cs
    else match splitAt p cs with
      | [] => [[c]]
      | x :: xs => (c :: x) :: xs

/-- Join pieces with a separator, as `strings.Join`. -/
def joinWith (sep : GoString) : List GoString → GoString
  | [] => []
  | [x] => x
  | x :: y :: rest => x ++ sep ++ joinWith sep (y :: rest)

/-! ## path/filepath (Unix) -/

/-- One step of `filepath.Clean` over the stack of kept elements (innermost first). -/
def cleanStep (rooted : Bool) (stack : List GoString) (elem : GoString) : List GoString :=
  if elem = [] ∨ elem = lit "." then stack
  else if elem = lit ".." then
    match stack with
    | top :: below => if top = lit ".." then elem :: stack else below
    | [] => if rooted then [] else [elem]
  else elem :: stack

/-- Go `filepath.Clean`: collapse separators, drop `.` elements, resolve inner `..` elements,
drop `..` at the start of a rooted path; an empty result is `.`. -/
def Clean (path : GoString) : GoString :=
  let rooted : Bool := path.head? = some slash
  let kept := ((splitAt (fun c => c = slash) path).foldl (cleanStep rooted) []).reverse
  let out := (if rooted then [slash] else []) ++ joinWith [slash] kept
  if out = [] then lit "." else out

/-- Go `filepath.Join`: the elements from the first non-empty one on are joined with the
separator and cleaned; all-empty input gives the empty string. -/
def Join (elem : List GoString) : GoString :=
  match elem.dropWhile (fun e => e = []) with
  | [] => []
  | es => Clean (joinWith [slash] es)

/-- Go `filepath.Base`: the last element of the path, trailing separators removed;
`.` for the empty path and `/` for a path of separators only. -/
def Base (path : GoString) : GoString :=
  if path = [] then lit "."
  else
    let trimmed := (path.reverse.dropWhile (fun c => c = slash)).reverse
    let last := (trimmed.reverse.takeWhile (fun c => c ≠ slash)).reverse
    if last = [] then lit "/" else last

/-! ## net/http: the response writer -/

/-- A header map (`http.Header`), keys in canonical form. -/
abbrev Header := List (GoString × GoString)

/-- Go `Header.Set`: replace whatever is stored under the key. -/
def Header.Set (h : Header) (k v : GoString) : Header :=
  (k, v) :: h.filter (fun e => e.1 ≠ k)

/-- Go `Header.Del`. -/
def Header.Del (h : Header) (k : GoString) : Header :=
  h.filter (fun e => e.1 ≠ k)

/-- Go `Header.Get`. -/
def Header.Get (h : Header) (k : GoString) : Option GoString :=
  (h.find? (fun e => e.1 = k)).map (fun e => e.2)

/-- The state of an `http.ResponseWriter`.
* `header`: the header map the handler edits.
* `calls`: the code of every `WriteHeader` call, in call order (a call after the first is
  ignored by the server and logged as superfluous).
* `sent`: the header map as it stood at the first `WriteHeader`, which is what goes on the wire.
* `body`: the argument of every `Write` call, in call order.
Every status code this program uses allows a body. -/
structure ResponseWriter where
  header : Header := []
  calls : List Nat := []
  sent : Header := []
  body : List GoString := []
  deriving DecidableEq

namespace ResponseWriter

/-- The writer a handler is started with. -/
def fresh : ResponseWriter := {}

/-- The status line the client receives: the code of the first `WriteHeader`. -/
def status (w : ResponseWriter) : Option Nat := w.calls.head?

/-- Go `WriteHeader`: the first call fixes the status and the headers sent. -/
def WriteHeader (w : ResponseWriter) (code : Nat) : ResponseWriter :=
  if w.calls = [] then { w with calls := [code], sent := w.header }
  else { w with calls := w.calls ++ [code] }

/-- Go `Write`: an implicit `WriteHeader(200)` when no header was written, then the bytes. -/
def Write (w : ResponseWriter) (b : GoString) : ResponseWriter :=
  let w1 := if w.calls = [] then w.WriteHeader 200 else w
  { w1 with body := w1.body ++ [b] }

/-- The statement `w.Header().Set(k, v)`. -/
def SetHeader (w : ResponseWriter) (k v : GoString) : ResponseWriter :=
  { w with header := w.header.Set k v }

end ResponseWriter

/-- Go `fmt.Fprintln(w, s)` for one string operand. -/
def Fprintln (w : ResponseWriter) (s : GoString) : ResponseWriter :=
  w.Write (s ++ lit "\n")

/-- The first half of Go `http.Error`: the three writes to the header map. -/
def errorHeaders (w : ResponseWriter) : ResponseWriter :=
  let w1 := { w with header := w.header.Del (lit "Content-Length") }
  let w2 := w1.SetHeader (lit "Content-Type") (lit "text/plain; charset=utf-8")
  w2.SetHeader (lit "X-Content-Type-Options") (lit "nosniff")

/-- Go `http.Error`: the header writes, then the status and the message. -/
def Error (w : ResponseWriter) (error : GoString) (code : Nat) : ResponseWriter :=
  Fprintln ((errorHeaders w).WriteHeader code) error

/-- Go `http.StatusText` on the two redirect codes that occur. -/
def StatusText (code : Nat) : GoString :=
  if code = 301 then lit "Moved Permanently"
  else if code = 302 then lit "Found"
  else []

/-- The HTML escaping `http.Redirect` applies to the link in its body. -/
def htmlEscape (s : GoString) : GoString :=
  s.flatMap (fun c =>
    if c = 38 then lit "&amp;"
    else if c = 60 then lit "&lt;"
    else if c = 62 then lit "&gt;"
    else if c = 34 then lit "&#34;"
    else if c = 39 then lit "&#39;"
    else [c])

/-- Lower-case hexadecimal digit, as `strconv.AppendInt` in base 16 writes it. -/
def hexDigit (n : Nat) : UInt8 :=
  if n < 10 then UInt8.ofNat (48 + n) else UInt8.ofNat (87 + n)

/-- The escaping of non-ASCII bytes `http.Redirect` applies to the Location value. -/
def hexEscapeNonASCII (s : GoString) : GoString :=
  s.flatMap (fun c =>
    if c.toNat < 128 then [c]
    else [37, hexDigit (c.toNat / 16), hexDigit (c.toNat % 16)])

/-! ## The environment: files, requests -/

/-- An entry returned by `os.ReadDir`. -/
structure DirEntry where
  Name : GoString
  IsDir : Bool
  deriving DecidableEq

/-- The errors the host reports for a path: it does not exist, a component of it is not a
directory, access is denied, or anything else. -/
inductive Errno where
  | ENOENT
  | ENOTDIR
  | EACCES
  | EOTHER
  deriving DecidableEq, Repr

/-- What the host holds at a path: a regular file with its bytes or a directory with the
entries `os.ReadDir` returns for it. -/
inductive Node where
  | file (data : List UInt8)
  | dir (entries : List DirEntry)
  deriving DecidableEq

/-- The host file system as the program sees it: what looking at a path (`os.Stat`, `os.Open`,
`os.ReadDir`) answers, a node or an error. -/
structure FS where
  lookup : GoString → Except Errno Node

/-- The condition `os.IsNotExist(err)` on the error of `os.Stat(path)`. -/
def FS.notExist (fs : FS) (path : GoString) : Bool :=
  match fs.lookup path with
  | .error .ENOENT => true
  | _ => false

/-- The bytes of the regular file at a path, if there is one. -/
def FS.files (fs : FS) (path : GoString) : Option (List UInt8) :=
  match fs.lookup path with
  | .ok (.file data) => some data
  | _ => none

/-- Go `os.ReadDir`: the entries of a directory, `none` when the call fails. -/
def FS.readDir (fs : FS) (path : GoString) : Option (List DirEntry) :=
  match fs.lookup path with
  | .ok (.dir entries) => some entries
  | _ => none

/-- Store `data` as the regular file at `path`. -/
def FS.put (fs : FS) (path : GoString) (data : List UInt8) : FS :=
  { lookup := Function.update fs.lookup path (.ok (.file data)) }

/-- One part of a multipart body: its form field name, the `filename` parameter of its
Content-Disposition (empty when absent or empty), its bytes, and the answers the host gives to
the three I/O calls the upload handler makes for it: `openErr` says `handler.Open()` fails,
`createErr` says `os.Create` of its destination fails, `copyErr = some n` says `io.Copy` fails
after writing `n` bytes. -/
structure Part where
  name : GoString
  filename : GoString
  data : List UInt8
  openErr : Bool := false
  createErr : Bool := false
  copyErr : Option Nat := none
  deriving DecidableEq

/-- A `multipart.FileHeader` with the I/O answers of its part. -/
structure FileHeader where
  Filename : GoString
  data : List UInt8
  openErr : Bool := false
  createErr : Bool := false
  copyErr : Option Nat := none
  deriving DecidableEq

/-- A `multipart.Form`: the maps from field name to values and to attached files, in the
order the field names first occur (the iteration order of the map only renumbers the
goroutines the upload handler starts). -/
structure Form where
  Value : List (GoString × List GoString)
  File : List (GoString × List FileHeader)

/-- Go `Part.FileName`: the base name of the `filename` parameter, empty when there is none. -/
def FileName (p : Part) : GoString :=
  if p.filename = [] then [] else Base p.filename

/-- The statement `m[k] = append(m[k], v)` on a map kept as an association list. -/
def mapAppend {α : Type} (m : List (GoString × List α)) (k : GoString) (v : α) :
    List (GoString × List α) :=
  match m with
  | [] => [(k, [v])]
  | (k1, vs) :: rest =>
    if k1 = k then (k1, vs ++ [v]) :: rest else (k1, vs) :: mapAppend rest k v

/-- The file header `ReadForm` builds for a part that has a file name. -/
def headerOf (p : Part) : FileHeader :=
  { Filename := FileName p, data := p.data, openErr := p.openErr, createErr := p.createErr,
    copyErr := p.copyErr }

/-- What `multipart.Reader.ReadForm` does with one part: a part without a field name is
skipped, a part without a file name is stored as a value, any other part is stored as a file
header under its field name. -/
def addPart (form : Form) (p : Part) : Form :=
  if p.name = [] then form
  else if FileName p = [] then { form with Value := mapAppend form.Value p.name p.data }
  else { form with File := mapAppend form.File p.name (headerOf p) }

/-- Go `multipart.Reader.ReadForm` on the parts of a body. -/
def ReadForm (parts : List Part) : Form :=
  parts.foldl addPart { Value := [], File := [] }

/-- An `http.Request`. `Path` is `r.URL.Path`, `RawQuery` is `r.URL.RawQuery`, `Header` the
request headers. `MultipartForm` is nil when the server hands the request to a handler;
`body` is the sequence of parts of the body, `none` when the body is not a well-formed
multipart body. -/
structure Request where
  Method : GoString
  Path : GoString
  RawQuery : GoString := []
  Header : Header := []
  MultipartForm : Option Form := none
  body : Option (List Part) := none

/-- Go `Request.ParseMultipartForm`: a form already present is kept; otherwise the body is
parsed and on success stored. The second component says whether an error is returned. -/
def ParseMultipartForm (r : Request) : Request × Bool :=
  match r.MultipartForm with
  | some _ => (r, false)
  | none =>
    match r.body with
    | some parts => ({ r with MultipartForm := some (ReadForm parts) }, false)
    | none => (r, true)

/-! ## net/http: redirects and file serving -/

/-- The target `http.Redirect` computes for a URL without scheme and host: a relative target
is resolved against the directory of the request path, the path part is cleaned keeping a
trailing separator, and the query is put back. -/
def redirectTarget (r : Request) (url : GoString) : GoString :=
  let oldpath := if r.Path = [] then lit "/" else r.Path
  let olddir := (oldpath.reverse.dropWhile (fun c => c ≠ slash)).reverse
  let url1 := if url.head? = some slash then url else olddir ++ url
  let upath := url1.takeWhile (fun c => c ≠ 63)
  let query := url1.dropWhile (fun c => c ≠ 63)
  let cleaned := Clean upath
  let upath1 :=
    if upath.getLast? = some slash ∧ cleaned.getLast? ≠ some slash then cleaned ++ [slash]
    else cleaned
  upath1 ++ query

/-- Go `http.Redirect`: the Location header is set to the target with its non-ASCII bytes
escaped, a Content-Type is added for GET and HEAD when none was set, the status is written,
and for GET a short HTML body with the HTML-escaped target follows. -/
def Redirect (w : ResponseWriter) (r : Request) (url : GoString) (code : Nat) : ResponseWriter :=
  let target := redirectTarget r url
  let hadCT := (w.header.Get (lit "Content-Type")).isSome
  let w1 := w.SetHeader (lit "Location") (hexEscapeNonASCII target)
  let w2 :=
    if ¬ hadCT ∧ (r.Method = lit "GET" ∨ r.Method = lit "HEAD") then
      w1.SetHeader (lit "Content-Type") (lit "text/html; charset=utf-8")
    else w1
  let w3 := w2.WriteHeader code
  if ¬ hadCT ∧ r.Method = lit "GET" then
    Fprintln w3 (lit "<a href=\"" ++ htmlEscape target ++ lit "\">" ++ StatusText code ++ lit "</a>.\n")
  else w3

/-- The `localRedirect` of net/http: the query of the request is kept, the Location header is
set as given and the status 301 is written. -/
def localRedirect (w : ResponseWriter) (r : Request) (newPath : GoString) : ResponseWriter :=
  let target := if r.RawQuery = [] then newPath else newPath ++ lit "?" ++ r.RawQuery
  (w.SetHeader (lit "Location") target).WriteHeader 301

/-- The check `http.ServeFile` makes on the request path: some element, separated by a slash
or a backslash, is `..`. -/
def containsDotDot (v : GoString) : Bool :=
  (splitAt (fun c => c = slash ∨ c = 92) v).any (fun ent => ent = lit "..")

/-- The message and status net/http answers when it cannot open a file (`toHTTPError` after
`mapOpenError`): a missing path or a path through a non-directory is 404, a denied one 403,
anything else 500. -/
def toHTTPError (e : Errno) : GoString × Nat :=
  match e with
  | .ENOENT => (lit "404 page not found", 404)
  | .ENOTDIR => (lit "404 page not found", 404)
  | .EACCES => (lit "403 Forbidden", 403)
  | .EOTHER => (lit "500 Internal Server Error", 500)

/-- The parts of net/http whose output is taken as given: what `serveContent` answers to a
request with precondition or range headers, and the page `dirList` renders for a directory
(including its answer to If-Modified-Since). -/
structure NetHTTP where
  conditional : ResponseWriter → Request → List UInt8 → ResponseWriter
  dirList : ResponseWriter → Request → List DirEntry → ResponseWriter

/-- Whether the request carries one of the headers `serveContent` acts on: If-Match,
If-Unmodified-Since, If-None-Match, If-Modified-Since or Range, with a non-empty value. -/
def hasPrecondition (r : Request) : Bool :=
  [lit "If-Match", lit "If-Unmodified-Since", lit "If-None-Match", lit "If-Modified-Since",
    lit "Range"].any (fun k => (r.Header.Get k).getD [] ≠ [])

/-- The `serveContent` of net/http for a regular file: without precondition and range headers
the status is 200 and, unless the method is HEAD, the whole content is copied to the response
(one `Write` for the copy, none for an empty file). The headers that describe the content
(type, length, modification time, accepted ranges) are not tracked. -/
def serveContent (lib : NetHTTP) (w : ResponseWriter) (r : Request) (data : List UInt8) :
    ResponseWriter :=
  if hasPrecondition r then lib.conditional w r data
  else
    let w1 := w.WriteHeader 200
    if r.Method = lit "HEAD" ∨ data = [] then w1 else w1.Write data

/-- Go `http.ServeFile`: a request path with a `..` element is rejected with 400; a request
path ending in `/index.html` is redirected to `./`; a name that cannot be opened gets the
error page; a directory is redirected to its path with a trailing slash when the request path
lacks one, and otherwise answered with its `index.html` if it has one and with the directory
listing if not; a regular file is served by `serveContent`. -/
def ServeFile (lib : NetHTTP) (w : ResponseWriter) (r : Request) (fs : FS) (name : GoString) :
    ResponseWriter :=
  if containsDotDot r.Path then Error w (lit "invalid URL path") 400
  else if (lit "/index.html").isSuffixOf r.Path then localRedirect w r (lit "./")
  else
    match fs.lookup name with
    | .error e => Error w (toHTTPError e).1 (toHTTPError e).2
    | .ok (.file data) => serveContent lib w r data
    | .ok (.dir entries) =>
      if r.Path.getLast? ≠ some slash then localRedirect w r (Base r.Path ++ lit "/")
      else
        let index :=
          (if name.getLast? = some slash then name.dropLast else name) ++ lit "/index.html"
        match fs.lookup index with
        | .ok (.file data) => serveContent lib w r data
        | .ok (.dir inner) => lib.dirList w r inner
        | .error _ => lib.dirList w r entries

/-! ## The handlers of `main.go` -/

/-- Source `downloadHandler`: resolve the request path under the root, answer 404 when
`os.Stat` reports the path missing, otherwise set Content-Disposition and let `http.ServeFile`
answer. -/
def downloadHandler (lib : NetHTTP) (w : ResponseWriter) (r : Request) (rootDir : GoString)
    (fs : FS) : Except Panic ResponseWriter :=
  match sliceFrom r.Path 1 with
  | .error e => .error e
  | .ok rest =>
    let filePath := Join [rootDir, rest]
    if fs.notExist filePath then
      .ok (Error w (lit "文件不存在") 404)
    else
      let w1 := w.SetHeader (lit "Content-Disposition")
        (lit "attachment; filename=\"" ++ Base filePath ++ lit "\"")
      .ok (ServeFile lib w1 r fs filePath)

/-- Source `rootHandler`: redirect `/` to the listing, hand every other path to
`downloadHandler`. -/
def rootHandler (lib : NetHTTP) (rootDir : GoString) (w : ResponseWriter) (r : Request)
    (fs : FS) : Except Panic ResponseWriter :=
  let path := r.Path
  if path = lit "/" then .ok (Redirect w r (lit "/files") 302)
  else downloadHandler lib w r rootDir fs

/-- The list item `fileListHandler` prints for one file name. -/
def listItem (filePath : GoString) : GoString :=
  lit "<li><a href=\"/" ++ filePath ++ lit "\">" ++ filePath ++ lit "</a></li>\n"

/-- The upload form printed at the end of the listing (the raw string of the source;
`Fprintln` adds the final newline). -/
def uploadForm : GoString :=
  lit "<form action=\"/upload\" method=\"post\" enctype=\"multipart/form-data\">\n\t\t<input type=\"file\" name=\"file\" multiple>\n\t\t<input type=\"submit\" value=\"上传文件\">\n\t\t</form>"

/-- Source `fileListHandler`: 500 when the directory cannot be read; otherwise the heading, one
list item per entry that is not a directory, and the upload form. -/
def fileListHandler (rootDir : GoString) (w : ResponseWriter) (fs : FS) : ResponseWriter :=
  match fs.readDir rootDir with
  | none => Error w (lit "无法读取文件列表") 500
  | some files =>
    let w1 := w.SetHeader (lit "Content-Type") (lit "text/html; charset=utf-8")
    let w2 := Fprintln w1 (lit "<h1>文件列表</h1>")
    let w3 := Fprintln w2 (lit "<ul>")
    let w4 := files.foldl
      (fun acc file => if ¬ file.IsDir then acc.Write (listItem file.Name) else acc) w3
    let w5 := Fprintln w4 (lit "</ul>")
    Fprintln w5 uploadForm

/-! ## The upload handler and its goroutines -/

/-- Where a per-file goroutine stands: before `handler.Open()`, before the filename check,
before `os.Create`, before `io.Copy`, inside `http.Error` while it writes the header map,
inside `http.Error` before it writes status and message, or returned. The two positions
inside `http.Error` carry the arguments of the call. -/
inductive PC where
  | start
  | opened
  | named
  | created
  | writing (msg : GoString) (code : Nat)
  | wrote (msg : GoString) (code : Nat)
  | done
  deriving DecidableEq, Repr

/-- What `io.Copy` into a file just opened by `os.Create` leaves in it: the bytes written from
offset 0 on, over whatever the file holds at that moment. -/
def overlay (data old : List UInt8) : List UInt8 :=
  data ++ old.drop data.length

/-- What the goroutines of one request share: the response writer, the file system, the flag
the runtime sets while a goroutine writes to the header map of the response, and whether the
runtime has aborted the process. -/
structure Shared where
  w : ResponseWriter
  fs : FS
  hashWriting : Bool
  crashed : Bool

/-- A goroutine enters `http.Error(w, msg, code)` and starts writing to the header map: the
runtime aborts the process when another goroutine is in the middle of such a write. -/
def beginError (sh : Shared) (msg : GoString) (code : Nat) : PC × Shared :=
  if sh.hashWriting then (.writing msg code, { sh with crashed := true })
  else (.writing msg code, { sh with hashWriting := true })

/-- One step of the goroutine body for `handler` on the shared state. No lock orders the
goroutines, so the steps of different goroutines interleave freely. A call of `http.Error`
takes three steps: the goroutine enters the call and starts writing the header map, it
finishes the header writes, and it writes status and message; each of these accesses to the
writer is taken as indivisible. -/
def taskStep (rootDir : GoString) (handler : FileHeader) (pc : PC) (sh : Shared) :
    PC × Shared :=
  let filePath := Join [rootDir, handler.Filename]
  match pc with
  | .start =>
    if handler.openErr then beginError sh (lit "无法读取上传的文件") 400
    else (.opened, sh)
  | .opened =>
    if handler.Filename = [] then beginError sh (lit "未选择文件") 400
    else (.named, sh)
  | .named =>
    if handler.createErr then beginError sh (lit "无法创建文件") 500
    else (.created, { sh with fs := sh.fs.put filePath [] })
  | .created =>
    let old := (sh.fs.files filePath).getD []
    match handler.copyErr with
    | some n =>
      beginError { sh with fs := sh.fs.put filePath (overlay (handler.data.take n) old) }
        (lit "无法保存文件") 500
    | none => (.done, { sh with fs := sh.fs.put filePath (overlay handler.data old) })
  | .writing msg code =>
    (.wrote msg code, { sh with w := errorHeaders sh.w, hashWriting := false })
  | .wrote msg code =>
    (.done, { sh with w := Fprintln (sh.w.WriteHeader code) msg })
  | .done => (.done, sh)

/-- The state while the goroutines run: what they share and the position of each. -/
structure UState extends Shared where
  pc : Nat → PC

/-- The scheduler lets goroutine `i` make its next step; nothing runs once the process is
aborted. -/
def step (rootDir : GoString) (handlers : List FileHeader) (s : UState) (i : Nat) : UState :=
  if s.crashed then s
  else
    match handlers[i]? with
    | none => s
    | some handler =>
      let out := taskStep rootDir handler (s.pc i) s.toShared
      { toShared := out.2, pc := Function.update s.pc i out.1 }

/-- Run the goroutines in the order a schedule gives. -/
def run (rootDir : GoString) (handlers : List FileHeader) (sched : List Nat) (s : UState) :
    UState :=
  sched.foldl (step rootDir handlers) s

/-- The barrier `wg.Wait()`: every goroutine that has not returned is run until it has (a
goroutine body has at most six steps). -/
def drain (n : Nat) : List Nat :=
  (List.range n).flatMap (fun i => [i, i, i, i, i, i])

/-- The state in which the goroutines are started. -/
def UState.init (w : ResponseWriter) (fs : FS) : UState :=
  { w := w, fs := fs, hashWriting := false, crashed := false, pc := fun _ => .start }

/-- Source `uploadHandler`. `sched` is the order in which the Go scheduler interleaves the
steps of the goroutines before the barrier; every interleaving is some `sched`. When the
runtime aborts the process, no response is written. -/
def uploadHandler (rootDir : GoString) (sched : List Nat) (w : ResponseWriter) (r : Request)
    (fs : FS) : Except Panic (ResponseWriter × FS) :=
  if r.Method ≠ lit "POST" then
    .ok (Error w (lit "无效的请求方法") 405, fs)
  else
    let r1 := (ParseMultipartForm r).1
    match r1.MultipartForm with
    | none => .error .nilDeref
    | some form =>
      let handlers := form.File.flatMap (fun field => field.2)
      let s := run rootDir handlers (sched ++ drain handlers.length) (UState.init w fs)
      if s.crashed then .error .concurrentMapWrites
      else .ok (Redirect s.w r (lit "/files") 302, s.fs)

/-- Whether the goroutine for `handler` ends in one of its four error branches. -/
def fails (handler : FileHeader) : Bool :=
  handler.openErr || decide (handler.Filename = []) || handler.createErr || handler.copyErr.isSome

/-- The status written to the response by a result, `none` when there is no response. -/
def statusOf (x : Except Panic ResponseWriter) : Option Nat :=
  match x with
  | .ok w => w.status
  | .error _ => none

/-- The bytes written to the response body by a result, `none` when there is no response. -/
def bodyOf (x : Except Panic ResponseWriter) : Option GoString :=
  match x with
  | .ok w => some w.body.flatten
  | .error _ => none

/-- The run-time failure of a result, `none` when the handler returned. -/
def panicOf {α : Type} (x : Except Panic α) : Option Panic :=
  match x with
  | .ok _ => none
  | .error e => some e

/-- The response part of an upload result. -/
def responseOf (x : Except Panic (ResponseWriter × FS)) : Except Panic ResponseWriter :=
  match x with
  | .ok p => .ok p.1
  | .error e => .error e

/-- The file stored at a path after an upload, `none` when there is none or no result. -/
def fileAfter (x : Except Panic (ResponseWriter × FS)) (path : GoString) :
    Option (List UInt8) :=
  match x with
  | .ok p => p.2.files path
  | .error _ => none

/-- The codes of the header writes of a result, in call order; empty when no response. -/
def callsOf (x : Except Panic ResponseWriter) : List Nat :=
  match x with
  | .ok w => w.calls
  | .error _ => []

/-- The value of a header as sent with a result, `none` when absent or no response. -/
def sentOf (x : Except Panic ResponseWriter) (key : GoString) : Option GoString :=
  match x with
  | .ok w => w.sent.Get key
  | .error _ => none

/-! ## Invariants of the goroutines -/

/-- What the position of a goroutine says about its file header: the checks it has passed, and
inside `http.Error` that the header fails and the code is 400 or 500. -/
def reach (h : FileHeader) : PC → Prop
  | .start => True
  | .opened => h.openErr = false
  | .named => h.openErr = false ∧ h.Filename ≠ []
  | .created => h.openErr = false ∧ h.Filename ≠ [] ∧ h.createErr = false
  | .writing _ code => fails h = true ∧ (code = 400 ∨ code = 500)
  | .wrote _ code => fails h = true ∧ (code = 400 ∨ code = 500)
  | .done => True

/-- The number of steps a goroutine at a position has left at most. -/
def rank : PC → Nat
  | .start => 6
  | .opened => 5
  | .named => 4
  | .created => 3
  | .writing _ _ => 2
  | .wrote _ _ => 1
  | .done => 0

/-- Every goroutine position is consistent with the checks its file header passes. -/
def Reach (H : List FileHeader) (s : UState) : Prop :=
  ∀ i h, H[i]? = some h → reach h (s.pc i)

/-- The destination of the file header `g` at index `i` holds nothing once its goroutine has
created it and the whole part once the goroutine has returned. -/
def Written (rootDir : GoString) (H : List FileHeader) (i : Nat) (g : FileHeader)
    (s : UState) : Prop :=
  Reach H s ∧
  (s.pc i = .created → s.fs.files (Join [rootDir, g.Filename]) = some []) ∧
  (s.pc i = .done → s.fs.files (Join [rootDir, g.Filename]) = some g.data)

/-- The goroutines have left the response writer `w0` alone and the process is running. -/
def Quiet (H : List FileHeader) (w0 : ResponseWriter) (s : UState) : Prop :=
  Reach H s ∧ s.crashed = false ∧ s.hashWriting = false ∧ s.w = w0

/-- The process is running, and the header map is being written only while some goroutine is
inside the first half of `http.Error`. -/
def Solo (H : List FileHeader) (s : UState) : Prop :=
  Reach H s ∧ s.crashed = false ∧
  (s.hashWriting = true → ∃ i h msg code, H[i]? = some h ∧ s.pc i = .writing msg code)

/-- What the response writer has seen while the goroutines run: only 400 and 500, and at
least one of them as soon as a failing part's goroutine has returned. -/
def Calls (H : List FileHeader) (s : UState) : Prop :=
  Reach H s ∧ (∀ c ∈ s.w.calls, c = 400 ∨ c = 500) ∧
  (∀ i h, H[i]? = some h → fails h = true → s.pc i = .done → s.w.calls ≠ [])

/-! ## Sample data -/

/-- The parts of net/http taken as given, at sample values: a 206 for conditional requests
and a one-line page for directories. -/
def sampleHTTP : NetHTTP where
  conditional := fun w _ _ => w.WriteHeader 206
  dirList := fun w _ _ => w.Write (lit "<pre>\n</pre>\n")

/-- A root directory `files` holding `a.txt` and `index.html`, and a subdirectory `d`. -/
def sampleFS : FS where
  lookup := fun p =>
    if p = lit "files/a.txt" then .ok (.file (lit "hello"))
    else if p = lit "files/index.html" then .ok (.file (lit "<html>"))
    else if p = lit "files/d" then .ok (.dir [])
    else if p = lit "./files" ∨ p = lit "files" then
      .ok (.dir [⟨lit "a.txt", false⟩, ⟨lit "d", true⟩, ⟨lit "index.html", false⟩])
    else if p = lit "files/a.txt/x" then .error .ENOTDIR
    else .error .ENOENT

/-- A GET request for a path. -/
def getRequest (path : GoString) : Request := { Method := lit "GET", Path := path }

/-- A POST to `/upload` whose body consists of the given parts. -/
def postRequest (parts : List Part) : Request :=
  { Method := lit "POST", Path := lit "/upload", body := some parts }

/-- Three files under two field names, every call succeeding. -/
def threeFiles : List Part :=
  [{ name := lit "file", filename := lit "a.txt", data := lit "hello" },
   { name := lit "file", filename := lit "b.txt", data := lit "world" },
   { name := lit "doc", filename := lit "c.txt", data := [] }]

/-- One file whose `Open` fails. -/
def oneUnreadable : List Part :=
  [{ name := lit "file", filename := lit "a.txt", data := lit "hello", openErr := true }]

/-- Two failing files: the first cannot be opened (400), the second cannot be created (500). -/
def twoFailures : List Part :=
  [{ name := lit "file", filename := lit "a.txt", data := lit "hello", openErr := true },
   { name := lit "file", filename := lit "b.txt", data := lit "world", createErr := true }]

/-- Two files whose destinations cannot be created, as when the root directory is not
writable. -/
def twoUncreatable : List Part :=
  [{ name := lit "file", filename := lit "a.txt", data := lit "hello", createErr := true },
   { name := lit "file", filename := lit "b.txt", data := lit "world", createErr := true }]

/-- A part with an empty file name, as a browser sends for an empty file input, next to a
well-formed part. -/
def unnamedAndNamed : List Part :=
  [{ name := lit "file", filename := [], data := lit "lost" },
   { name := lit "file", filename := lit "b.txt", data := lit "world" }]

/-! ## Facts about the response writer -/

theorem Header.Get_Set_same (h : Header) (k v : GoString) : (h.Set k v).Get k = some v := by
  simp [Header.Set, Header.Get]

theorem find?_filter_of_imp {α : Type} (p q : α → Bool) (l : List α)
    (h : ∀ a, q a = true → p a = true) : (l.filter p).find? q = l.find? q := by
  induction l with
  | nil => rfl
  | cons a l ih =>
    cases hq : q a
    · cases hp : p a
      · rw [List.filter_cons_of_neg (by simp [hp]), List.find?_cons_of_neg _ (by simp [hq]), ih]
      · rw [List.filter_cons_of_pos hp, List.find?_cons_of_neg _ (by simp [hq]),
          List.find?_cons_of_neg _ (by simp [hq]), ih]
    · rw [List.filter_cons_of_pos (h a hq), List.find?_cons_of_pos _ hq,
        List.find?_cons_of_pos _ hq]

theorem Header.Get_Set_ne (h : Header) (k k1 v : GoString) (hk : k ≠ k1) :
    (h.Set k v).Get k1 = h.Get k1 := by
  unfold Header.Set Header.Get
  rw [List.find?_cons_of_neg _ (by simpa using hk)]
  rw [find?_filter_of_imp]
  intro a ha
  have : a.1 = k1 := by simpa using ha
  simp [this, Ne.symm hk]

theorem Write_calls_of_ne (w : ResponseWriter) (b : GoString) (h : w.calls ≠ []) :
    (w.Write b).calls = w.calls := by
  simp [ResponseWriter.Write, h]

theorem WriteHeader_calls (w : ResponseWriter) (code : Nat) :
    (w.WriteHeader code).calls = w.calls ++ [code] := by
  unfold ResponseWriter.WriteHeader
  split_ifs with h
  · simp [h]
  · rfl

theorem errorHeaders_calls (w : ResponseWriter) : (errorHeaders w).calls = w.calls := by
  simp [errorHeaders, ResponseWriter.SetHeader]

theorem Fprintln_WriteHeader_calls (w : ResponseWriter) (msg : GoString) (code : Nat) :
    (Fprintln (w.WriteHeader code) msg).calls = w.calls ++ [code] := by
  unfold Fprintln
  rw [Write_calls_of_ne _ _ (by simp [WriteHeader_calls])]
  exact WriteHeader_calls w code

theorem Error_calls (w : ResponseWriter) (msg : GoString) (code : Nat) :
    (Error w msg code).calls = w.calls ++ [code] := by
  unfold Error
  rw [Fprintln_WriteHeader_calls, errorHeaders_calls]

theorem Redirect_calls (w : ResponseWriter) (r : Request) (url : GoString) (code : Nat) :
    (Redirect w r url code).calls = w.calls ++ [code] := by
  unfold Redirect
  simp only []
  split_ifs <;>
    first
      | (unfold Fprintln
         rw [Write_calls_of_ne _ _ (by simp [WriteHeader_calls])]
         simp [WriteHeader_calls, ResponseWriter.SetHeader])
      | simp [WriteHeader_calls, ResponseWriter.SetHeader]

theorem localRedirect_calls (w : ResponseWriter) (r : Request) (p : GoString) :
    (localRedirect w r p).calls = w.calls ++ [301] := by
  simp [localRedirect, WriteHeader_calls, ResponseWriter.SetHeader]

theorem Error_fresh (msg : GoString) (code : Nat) :
    Error .fresh msg code =
      { header := [(lit "X-Content-Type-Options", lit "nosniff"),
                   (lit "Content-Type", lit "text/plain; charset=utf-8")],
        calls := [code],
        sent := [(lit "X-Content-Type-Options", lit "nosniff"),
                 (lit "Content-Type", lit "text/plain; charset=utf-8")],
        body := [msg ++ lit "\n"] } := by
  have hk : (lit "Content-Type" ≠ lit "X-Content-Type-Options") := by decide
  simp [Error, errorHeaders, Fprintln, ResponseWriter.fresh, ResponseWriter.Write,
    ResponseWriter.WriteHeader, ResponseWriter.SetHeader, Header.Set, Header.Del, hk]

/-- The target `/files` passes through the URL resolution of `http.Redirect` unchanged. -/
theorem redirectTarget_files (r : Request) : redirectTarget r (lit "/files") = lit "/files" := by
  have h1 : (lit "/files").head? = some slash := by decide
  unfold redirectTarget
  simp only [h1, if_true]
  decide

theorem Redirect_files_sent (w : ResponseWriter) (r : Request) (hw : w.calls = []) :
    (Redirect w r (lit "/files") 302).sent.Get (lit "Location") = some (lit "/files") := by
  have hk : (lit "Content-Type" ≠ lit "Location") := by decide
  have he : hexEscapeNonASCII (lit "/files") = lit "/files" := by decide
  have hsent : (Redirect w r (lit "/files") 302).sent =
      (if ¬ (w.header.Get (lit "Content-Type")).isSome ∧
          (r.Method = lit "GET" ∨ r.Method = lit "HEAD") then
        (w.header.Set (lit "Location") (lit "/files")).Set (lit "Content-Type")
          (lit "text/html; charset=utf-8")
       else w.header.Set (lit "Location") (lit "/files")) := by
    unfold Redirect
    simp only [redirectTarget_files, he]
    split_ifs <;>
      simp [Fprintln, ResponseWriter.Write, ResponseWriter.WriteHeader,
        ResponseWriter.SetHeader, hw]
  rw [hsent]
  split_ifs
  · rw [Header.Get_Set_ne _ _ _ _ hk, Header.Get_Set_same]
  · rw [Header.Get_Set_same]

/-! ## Routing and downloads -/

/-- C9: on the path `/` the root handler answers with a 302 redirect to `/files` and the
answer is the same for every file system; on any other path its result is that of
`downloadHandler`, which resolves the path after its first byte under the root directory. -/
theorem rootHandler_routes (lib : NetHTTP) (rootDir : GoString) (r : Request) (fs : FS) :
    (r.Path = lit "/" →
      (∀ fs1 : FS, rootHandler lib rootDir .fresh r fs1 =
        .ok (Redirect .fresh r (lit "/files") 302)) ∧
      (Redirect .fresh r (lit "/files") 302).status = some 302 ∧
      (Redirect .fresh r (lit "/files") 302).calls = [302] ∧
      (Redirect .fresh r (lit "/files") 302).sent.Get (lit "Location") = some (lit "/files")) ∧
    (r.Path ≠ lit "/" →
      rootHandler lib rootDir .fresh r fs = downloadHandler lib .fresh r rootDir fs) ∧
    (∀ (c : UInt8) (rest : GoString), r.Path = c :: rest →
      downloadHandler lib .fresh r rootDir fs =
        if fs.notExist (Join [rootDir, rest]) then
          .ok (Error .fresh (lit "文件不存在") 404)
        else
          .ok (ServeFile lib
            (ResponseWriter.fresh.SetHeader (lit "Content-Disposition")
              (lit "attachment; filename=\"" ++ Base (Join [rootDir, rest]) ++ lit "\""))
            r fs (Join [rootDir, rest]))) := by
  refine ⟨fun hp => ⟨fun fs1 => ?_, ?_, ?_, ?_⟩, fun hp => ?_, fun c rest hp => ?_⟩
  · simp [rootHandler, hp]
  · simp [ResponseWriter.status, Redirect_calls, ResponseWriter.fresh]
  · simp [Redirect_calls, ResponseWriter.fresh]
  · exact Redirect_files_sent _ _ rfl
  · simp [rootHandler, hp]
  · simp [downloadHandler, sliceFrom, hp]

theorem rootHandler_routes_witness :
    rootHandler sampleHTTP (lit "./files") .fresh (getRequest (lit "/")) sampleFS =
      .ok (Redirect .fresh (getRequest (lit "/")) (lit "/files") 302) ∧
    rootHandler sampleHTTP (lit "./files") .fresh (getRequest (lit "/a.txt")) sampleFS =
      downloadHandler sampleHTTP .fresh (getRequest (lit "/a.txt")) (lit "./files") sampleFS :=
  ⟨((rootHandler_routes sampleHTTP (lit "./files") (getRequest (lit "/")) sampleFS).1
      (by decide)).1 sampleFS,
   (rootHandler_routes sampleHTTP (lit "./files") (getRequest (lit "/a.txt")) sampleFS).2.1
      (by decide)⟩

theorem downloadHandler_cons (lib : NetHTTP) (w : ResponseWriter) (r : Request)
    (rootDir : GoString) (fs : FS) (c : UInt8) (rest : GoString) (hp : r.Path = c :: rest) :
    downloadHandler lib w r rootDir fs =
      if fs.notExist (Join [rootDir, rest]) then
        .ok (Error w (lit "文件不存在") 404)
      else
        .ok (ServeFile lib
          (w.SetHeader (lit "Content-Disposition")
            (lit "attachment; filename=\"" ++ Base (Join [rootDir, rest]) ++ lit "\""))
          r fs (Join [rootDir, rest])) := by
  simp [downloadHandler, sliceFrom, hp]

/-- On the empty path the slice expression of `downloadHandler` is out of bounds. -/
theorem downloadHandler_empty_path (lib : NetHTTP) (rootDir method : GoString)
    (w : ResponseWriter) (fs : FS) :
    rootHandler lib rootDir w { Method := method, Path := [] } fs = .error .sliceBounds := by
  have h : ¬ (([] : GoString) = lit "/") := by decide
  simp [rootHandler, downloadHandler, sliceFrom, h]

/-- C10 (amended): on every non-empty request path, the only paths the server's mux hands to
the root handler, the slice `r.URL.Path[1:]` is within bounds, and both `downloadHandler` and
`rootHandler` return a response instead of panicking. -/
theorem rootHandler_total (lib : NetHTTP) (rootDir : GoString) (w : ResponseWriter)
    (r : Request) (fs : FS) (hp : r.Path ≠ []) :
    sliceFrom r.Path 1 = .ok (r.Path.drop 1) ∧
    (∃ w1, downloadHandler lib w r rootDir fs = .ok w1) ∧
    (∃ w1, rootHandler lib rootDir w r fs = .ok w1) := by
  obtain ⟨c, rest, hc⟩ := List.exists_cons_of_ne_nil hp
  have hd : ∃ w1, downloadHandler lib w r rootDir fs = .ok w1 := by
    rw [downloadHandler_cons _ _ _ _ _ _ _ hc]
    split_ifs <;> exact ⟨_, rfl⟩
  refine ⟨by simp [sliceFrom, hc], hd, ?_⟩
  by_cases h : r.Path = lit "/"
  · exact ⟨Redirect w r (lit "/files") 302, by simp [rootHandler, h]⟩
  · simpa only [rootHandler, h, if_false] using hd

theorem rootHandler_total_witness :
    (getRequest (lit "/a.txt")).Path ≠ [] ∧
    ∃ w1, rootHandler sampleHTTP (lit "./files") .fresh (getRequest (lit "/a.txt")) sampleFS =
      .ok w1 :=
  ⟨by decide,
    (rootHandler_total sampleHTTP (lit "./files") .fresh (getRequest (lit "/a.txt")) sampleFS
      (by decide)).2.2⟩

/-- C10 (as stated, refuted): the empty string is a path other than `/`, the slice
`r.URL.Path[1:]` is out of bounds on it, and the root handler panics instead of producing a
response. -/
theorem rootHandler_empty_path_panics :
    ([] : GoString) ≠ lit "/" ∧
    panicOf (sliceFrom ([] : GoString) 1) = some .sliceBounds ∧
    panicOf (rootHandler sampleHTTP (lit "./files") .fresh (getRequest []) sampleFS) =
      some .sliceBounds := by
  decide

theorem ServeFile_regular (lib : NetHTTP) (w : ResponseWriter) (r : Request) (fs : FS)
    (name : GoString) (data : List UInt8) (hfile : fs.lookup name = .ok (.file data))
    (hdd : containsDotDot r.Path = false)
    (hidx : (lit "/index.html").isSuffixOf r.Path = false)
    (hpre : hasPrecondition r = false) :
    ServeFile lib w r fs name =
      if r.Method = lit "HEAD" ∨ data = [] then w.WriteHeader 200
      else (w.WriteHeader 200).Write data := by
  simp [ServeFile, hdd, hidx, hfile, serveContent, hpre]

/-- A stored regular file behind a path without `..` element and not ending in `/index.html`,
asked for without precondition and range headers, is answered 200 with
`Content-Disposition: attachment; filename="<base name>"` and, unless the method is HEAD,
exactly its bytes. -/
theorem downloadHandler_regular_file (lib : NetHTTP) (rootDir : GoString) (r : Request)
    (fs : FS) (c : UInt8) (rest : GoString) (data : List UInt8) (hp : r.Path = c :: rest)
    (hfile : fs.lookup (Join [rootDir, rest]) = .ok (.file data))
    (hdd : containsDotDot r.Path = false)
    (hidx : (lit "/index.html").isSuffixOf r.Path = false)
    (hpre : hasPrecondition r = false) :
    ∃ w, downloadHandler lib .fresh r rootDir fs = .ok w ∧ w.status = some 200 ∧
      (r.Method ≠ lit "HEAD" → w.body.flatten = data) ∧
      w.sent.Get (lit "Content-Disposition") =
        some (lit "attachment; filename=\"" ++ Base (Join [rootDir, rest]) ++ lit "\"") := by
  rw [downloadHandler_cons _ _ _ _ _ _ _ hp]
  have hne : fs.notExist (Join [rootDir, rest]) = false := by simp [FS.notExist, hfile]
  refine ⟨_, by simp only [hne]; rfl, ?_, ?_, ?_⟩
  · rw [ServeFile_regular lib _ r fs _ data hfile hdd hidx hpre]
    split_ifs <;>
      simp [ResponseWriter.status, ResponseWriter.Write, ResponseWriter.WriteHeader,
        ResponseWriter.SetHeader, ResponseWriter.fresh]
  · intro hm
    rw [ServeFile_regular lib _ r fs _ data hfile hdd hidx hpre]
    by_cases hd : data = []
    · simp [hd, ResponseWriter.WriteHeader, ResponseWriter.SetHeader, ResponseWriter.fresh]
    · simp [hm, hd, ResponseWriter.Write, ResponseWriter.WriteHeader,
        ResponseWriter.SetHeader, ResponseWriter.fresh]
  · rw [ServeFile_regular lib _ r fs _ data hfile hdd hidx hpre]
    split_ifs <;>
      simp [ResponseWriter.Write, ResponseWriter.WriteHeader,
        ResponseWriter.SetHeader, ResponseWriter.fresh, Header.Set, Header.Get]

/-- Whatever is stored behind a request path ending in `/index.html`, `downloadHandler`
answers with the 301 redirect of `http.ServeFile` and writes no body. -/
theorem downloadHandler_index_html (lib : NetHTTP) (rootDir : GoString) (r : Request)
    (fs : FS) (c : UInt8) (rest : GoString) (hp : r.Path = c :: rest)
    (hex : fs.notExist (Join [rootDir, rest]) = false)
    (hdd : containsDotDot r.Path = false)
    (hidx : (lit "/index.html").isSuffixOf r.Path = true) :
    ∃ w, downloadHandler lib .fresh r rootDir fs = .ok w ∧ w.status = some 301 ∧
      w.body = [] := by
  rw [downloadHandler_cons _ _ _ _ _ _ _ hp]
  refine ⟨_, by simp only [hex]; rfl, ?_, ?_⟩
  · simp [ServeFile, hdd, hidx, ResponseWriter.status, localRedirect_calls,
      ResponseWriter.SetHeader, ResponseWriter.fresh]
  · simp [ServeFile, hdd, hidx, localRedirect, ResponseWriter.WriteHeader,
      ResponseWriter.SetHeader, ResponseWriter.fresh]

/-- C6 (the code departs from the claim): `files/index.html` exists and holds `<html>`, and
the listing page links to `/index.html`, yet a GET for `/index.html` is answered with a 301
redirect to `./` and an empty body instead of the file's bytes, while the neighbouring file
`/a.txt` is served with status 200 and its exact bytes. -/
theorem downloadHandler_index_html_not_served :
    sampleFS.files (Join [lit "./files", (lit "/index.html").drop 1]) = some (lit "<html>") ∧
    lit "<li><a href=\"/index.html\">index.html</a></li>\n" ∈
      (fileListHandler (lit "./files") .fresh sampleFS).body ∧
    statusOf (downloadHandler sampleHTTP .fresh (getRequest (lit "/index.html"))
      (lit "./files") sampleFS) = some 301 ∧
    sentOf (downloadHandler sampleHTTP .fresh (getRequest (lit "/index.html"))
      (lit "./files") sampleFS) (lit "Location") = some (lit "./") ∧
    bodyOf (downloadHandler sampleHTTP .fresh (getRequest (lit "/index.html"))
      (lit "./files") sampleFS) = some [] ∧
    bodyOf (downloadHandler sampleHTTP .fresh (getRequest (lit "/index.html"))
      (lit "./files") sampleFS) ≠ some (lit "<html>") ∧
    statusOf (downloadHandler sampleHTTP .fresh (getRequest (lit "/a.txt"))
      (lit "./files") sampleFS) = some 200 ∧
    bodyOf (downloadHandler sampleHTTP .fresh (getRequest (lit "/a.txt"))
      (lit "./files") sampleFS) = some (lit "hello") := by
  decide

/-! ## The listing -/

theorem foldl_listing (files : List DirEntry) (w : ResponseWriter) (hw : w.calls ≠ []) :
    files.foldl
      (fun acc file => if ¬ file.IsDir then acc.Write (listItem file.Name) else acc) w =
    { w with body := w.body ++
        (files.filter (fun e => !e.IsDir)).map (fun e => listItem e.Name) } := by
  induction files generalizing w with
  | nil => simp
  | cons f fs ih =>
    rw [List.foldl_cons]
    cases hd : f.IsDir
    · have hw1 : (w.Write (listItem f.Name)).calls ≠ [] := by
        rw [Write_calls_of_ne _ _ hw]; exact hw
      simp only [Bool.false_eq_true, not_false_eq_true, if_true]
      rw [ih _ hw1]
      simp [ResponseWriter.Write, hw, hd]
    · simp only [not_true_eq_false, if_false]
      rw [ih _ hw]
      simp [hd]

/-- C7: when the root directory is readable with entries `E`, the listing page is, with status
200, the heading, the opening tag, one list item for every entry of `E` that is not a
directory (in the order of `E`, link target and text being the entry's name), the closing tag
and the upload form of the source, byte for byte; an empty directory gives no list item and
the form; when the directory cannot be read the response is the 500 error alone. -/
theorem fileListHandler_page (rootDir : GoString) (fs : FS) :
    (∀ E, fs.readDir rootDir = some E →
      (fileListHandler rootDir .fresh fs).status = some 200 ∧
      (fileListHandler rootDir .fresh fs).body =
        [lit "<h1>文件列表</h1>" ++ lit "\n", lit "<ul>" ++ lit "\n"] ++
        (E.filter (fun e => !e.IsDir)).map
          (fun e => lit "<li><a href=\"/" ++ e.Name ++ lit "\">" ++ e.Name ++
            lit "</a></li>\n") ++
        [lit "</ul>" ++ lit "\n",
         lit "<form action=\"/upload\" method=\"post\" enctype=\"multipart/form-data\">\n\t\t<input type=\"file\" name=\"file\" multiple>\n\t\t<input type=\"submit\" value=\"上传文件\">\n\t\t</form>" ++
           lit "\n"]) ∧
    (fs.readDir rootDir = some [] →
      (fileListHandler rootDir .fresh fs).body =
        [lit "<h1>文件列表</h1>" ++ lit "\n", lit "<ul>" ++ lit "\n",
         lit "</ul>" ++ lit "\n",
         lit "<form action=\"/upload\" method=\"post\" enctype=\"multipart/form-data\">\n\t\t<input type=\"file\" name=\"file\" multiple>\n\t\t<input type=\"submit\" value=\"上传文件\">\n\t\t</form>" ++
           lit "\n"]) ∧
    (fs.readDir rootDir = none →
      fileListHandler rootDir .fresh fs = Error .fresh (lit "无法读取文件列表") 500 ∧
      (fileListHandler rootDir .fresh fs).status = some 500 ∧
      (fileListHandler rootDir .fresh fs).body = [lit "无法读取文件列表" ++ lit "\n"]) := by
  have main : ∀ E, fs.readDir rootDir = some E →
      (fileListHandler rootDir .fresh fs).status = some 200 ∧
      (fileListHandler rootDir .fresh fs).body =
        [lit "<h1>文件列表</h1>" ++ lit "\n", lit "<ul>" ++ lit "\n"] ++
        (E.filter (fun e => !e.IsDir)).map
          (fun e => lit "<li><a href=\"/" ++ e.Name ++ lit "\">" ++ e.Name ++
            lit "</a></li>\n") ++
        [lit "</ul>" ++ lit "\n",
         lit "<form action=\"/upload\" method=\"post\" enctype=\"multipart/form-data\">\n\t\t<input type=\"file\" name=\"file\" multiple>\n\t\t<input type=\"submit\" value=\"上传文件\">\n\t\t</form>" ++
           lit "\n"] := by
    intro E hE
    unfold fileListHandler
    simp only [hE]
    rw [foldl_listing _ _ (by simp [Fprintln, ResponseWriter.Write, ResponseWriter.WriteHeader,
      ResponseWriter.SetHeader, ResponseWriter.fresh])]
    constructor
    · simp [Fprintln, ResponseWriter.Write, ResponseWriter.WriteHeader,
        ResponseWriter.SetHeader, ResponseWriter.fresh, ResponseWriter.status]
    · simp [Fprintln, ResponseWriter.Write, ResponseWriter.WriteHeader,
        ResponseWriter.SetHeader, ResponseWriter.fresh, listItem, uploadForm]
  refine ⟨main, fun hE => ?_, fun hE => ?_⟩
  · rw [(main [] hE).2]; rfl
  · have h : fileListHandler rootDir .fresh fs = Error .fresh (lit "无法读取文件列表") 500 := by
      simp [fileListHandler, hE]
    rw [h]
    refine ⟨rfl, ?_, ?_⟩
    · simp [ResponseWriter.status, Error_calls, ResponseWriter.fresh]
    · rw [Error_fresh]

theorem fileListHandler_page_witness :
    sampleFS.readDir (lit "./files") =
      some [⟨lit "a.txt", false⟩, ⟨lit "d", true⟩, ⟨lit "index.html", false⟩] ∧
    (fileListHandler (lit "./files") .fresh sampleFS).status = some 200 ∧
    (fileListHandler (lit "./files") .fresh sampleFS).body =
      [lit "<h1>文件列表</h1>" ++ lit "\n", lit "<ul>" ++ lit "\n"] ++
      (([⟨lit "a.txt", false⟩, ⟨lit "d", true⟩, ⟨lit "index.html", false⟩] :
          List DirEntry).filter (fun e => !e.IsDir)).map
        (fun e => lit "<li><a href=\"/" ++ e.Name ++ lit "\">" ++ e.Name ++
          lit "</a></li>\n") ++
      [lit "</ul>" ++ lit "\n",
       lit "<form action=\"/upload\" method=\"post\" enctype=\"multipart/form-data\">\n\t\t<input type=\"file\" name=\"file\" multiple>\n\t\t<input type=\"submit\" value=\"上传文件\">\n\t\t</form>" ++
         lit "\n"] :=
  ⟨by decide, (fileListHandler_page (lit "./files") sampleFS).1 _ (by decide)⟩

/-! ## Uploads: the paths that start no goroutine -/

/-- C2: a request whose method is not POST gets the 405 error and nothing else: the result
does not depend on the form or the schedule, the file system is returned unchanged, a single
header write (405) happened and no Location header is set. -/
theorem uploadHandler_not_post (rootDir : GoString) (sched : List Nat) (r : Request) (fs : FS)
    (hm : r.Method ≠ lit "POST") :
    uploadHandler rootDir sched .fresh r fs =
      .ok (Error .fresh (lit "无效的请求方法") 405, fs) ∧
    (Error .fresh (lit "无效的请求方法") 405).status = some 405 ∧
    (Error .fresh (lit "无效的请求方法") 405).calls = [405] ∧
    (Error .fresh (lit "无效的请求方法") 405).body = [lit "无效的请求方法" ++ lit "\n"] ∧
    (Error .fresh (lit "无效的请求方法") 405).header.Get (lit "Location") = none ∧
    (Error .fresh (lit "无效的请求方法") 405).sent.Get (lit "Location") = none := by
  have hl1 : lit "Location" ≠ lit "X-Content-Type-Options" := by decide
  have hl2 : lit "Location" ≠ lit "Content-Type" := by decide
  refine ⟨by simp [uploadHandler, hm], ?_, ?_, ?_, ?_, ?_⟩
  · simp [ResponseWriter.status, Error_calls, ResponseWriter.fresh]
  · simp [Error_calls, ResponseWriter.fresh]
  · rw [Error_fresh]
  · rw [Error_fresh]; simp [Header.Get, Ne.symm hl1, Ne.symm hl2]
  · rw [Error_fresh]; simp [Header.Get, Ne.symm hl1, Ne.symm hl2]

theorem uploadHandler_not_post_witness :
    (getRequest (lit "/upload")).Method ≠ lit "POST" ∧
    uploadHandler (lit "./files") [0, 1] .fresh (getRequest (lit "/upload")) sampleFS =
      .ok (Error .fresh (lit "无效的请求方法") 405, sampleFS) :=
  ⟨by decide,
    (uploadHandler_not_post (lit "./files") [0, 1] (getRequest (lit "/upload")) sampleFS
      (by decide)).1⟩

/-- C3 (the code departs from the claim): a POST whose body does not parse leaves
`r.MultipartForm` nil, the error of `ParseMultipartForm` is dropped, and the handler panics on
`r.MultipartForm.File` instead of answering 400. -/
theorem uploadHandler_parse_failure_panics (rootDir path : GoString) (sched : List Nat)
    (w : ResponseWriter) (fs : FS) :
    (ParseMultipartForm { Method := lit "POST", Path := path }).2 = true ∧
    uploadHandler rootDir sched w { Method := lit "POST", Path := path } fs =
      .error .nilDeref := by
  constructor
  · rfl
  · simp [uploadHandler, ParseMultipartForm]

/-! ## Uploads: what the parser hands to the handler -/

theorem mapAppend_mem {α : Type} (m : List (GoString × List α)) (k : GoString) (v : α)
    (e : GoString × List α) (he : e ∈ mapAppend m k v) (x : α) (hx : x ∈ e.2) :
    x = v ∨ ∃ e1 ∈ m, x ∈ e1.2 := by
  induction m with
  | nil =>
    simp only [mapAppend, List.mem_singleton] at he
    subst he
    left
    simpa using hx
  | cons a rest ih =>
    obtain ⟨k1, vs⟩ := a
    simp only [mapAppend] at he
    split_ifs at he with hk
    · rcases List.mem_cons.mp he with h | h
      · subst h
        rcases List.mem_append.mp hx with h1 | h1
        · right; exact ⟨(k1, vs), List.mem_cons_self _ _, h1⟩
        · left; simpa using h1
      · right; exact ⟨e, List.mem_cons_of_mem _ h, hx⟩
    · rcases List.mem_cons.mp he with h | h
      · subst h
        right; exact ⟨(k1, vs), List.mem_cons_self _ _, hx⟩
      · rcases ih h with h1 | ⟨e1, he1, hx1⟩
        · left; exact h1
        · right; exact ⟨e1, List.mem_cons_of_mem _ he1, hx1⟩

theorem addPart_named (form : Form) (p : Part)
    (hform : ∀ e ∈ form.File, ∀ h ∈ e.2, h.Filename ≠ []) :
    ∀ e ∈ (addPart form p).File, ∀ h ∈ e.2, h.Filename ≠ [] := by
  unfold addPart
  split_ifs with h1 h2
  · exact hform
  · exact hform
  · intro e he h hh
    rcases mapAppend_mem form.File p.name (headerOf p) e he h hh with h3 | ⟨e1, he1, hh1⟩
    · rw [h3]; exact h2
    · exact hform e1 he1 h hh1

/-- The parser never hands over a file header with an empty filename: a part without a file
name is stored as a form value. -/
theorem ReadForm_named (parts : List Part) :
    ∀ h ∈ (ReadForm parts).File.flatMap (fun field => field.2), h.Filename ≠ [] := by
  have key : ∀ (ps : List Part) (form : Form),
      (∀ e ∈ form.File, ∀ h ∈ e.2, h.Filename ≠ []) →
      ∀ e ∈ (ps.foldl addPart form).File, ∀ h ∈ e.2, h.Filename ≠ [] := by
    intro ps
    induction ps with
    | nil => intro form hform; exact hform
    | cons p rest ih => intro form hform; exact ih _ (addPart_named form p hform)
  intro h hmem
  obtain ⟨e, he, hh⟩ := List.mem_flatMap.mp hmem
  exact key parts { Value := [], File := [] } (fun e he => by simp at he) e he h hh

/-! ## Uploads: the goroutines -/

theorem step_crashed (rootDir : GoString) (H : List FileHeader) (s : UState) (i : Nat)
    (hc : s.crashed = true) : step rootDir H s i = s := by
  simp [step, hc]

theorem step_none (rootDir : GoString) (H : List FileHeader) (s : UState) (i : Nat)
    (hi : H[i]? = none) : step rootDir H s i = s := by
  simp [step, hi]

theorem step_some (rootDir : GoString) (H : List FileHeader) (s : UState) (i : Nat)
    (h : FileHeader) (hc : s.crashed = false) (hi : H[i]? = some h) :
    step rootDir H s i =
      { toShared := (taskStep rootDir h (s.pc i) s.toShared).2,
        pc := Function.update s.pc i (taskStep rootDir h (s.pc i) s.toShared).1 } := by
  simp [step, hi, hc]

theorem run_append (rootDir : GoString) (H : List FileHeader) (s : UState)
    (a b : List Nat) :
    run rootDir H (a ++ b) s = run rootDir H b (run rootDir H a s) := by
  simp [run, List.foldl_append]

/-- A property kept by every step holds after every schedule. -/
theorem run_invariant (rootDir : GoString) (H : List FileHeader) (P : UState → Prop)
    (hstep : ∀ s i, P s → P (step rootDir H s i)) :
    ∀ (sched : List Nat) (s : UState), P s → P (run rootDir H sched s) := by
  intro sched
  induction sched with
  | nil => intro s hs; exact hs
  | cons i rest ih => intro s hs; exact ih _ (hstep s i hs)

theorem fails_false (g : FileHeader) (hg : fails g = false) :
    g.openErr = false ∧ g.Filename ≠ [] ∧ g.createErr = false ∧ g.copyErr = none := by
  simp only [fails, Bool.or_eq_false_iff, decide_eq_false_iff_not] at hg
  obtain ⟨⟨⟨h1, h2⟩, h3⟩, h4⟩ := hg
  refine ⟨h1, h2, h3, ?_⟩
  cases hc : g.copyErr with
  | none => rfl
  | some n => simp [hc] at h4

theorem taskStep_rank (rootDir : GoString) (h : FileHeader) (pc : PC) (sh : Shared) :
    rank (taskStep rootDir h pc sh).1 ≤ rank pc - 1 := by
  cases pc <;> simp only [taskStep, beginError] <;> (try split) <;> (try split_ifs) <;>
    simp [rank]

theorem taskStep_reach (rootDir : GoString) (h : FileHeader) (pc : PC) (sh : Shared)
    (hr : reach h pc) : reach h (taskStep rootDir h pc sh).1 := by
  cases pc with
  | start =>
    cases ho : h.openErr <;> simp [taskStep, beginError, reach, fails, ho]
    split_ifs <;> simp [reach, fails, ho]
  | opened =>
    by_cases hn : h.Filename = []
    · simp only [taskStep, beginError, hn, if_true]
      split_ifs <;> simp [reach, fails, hn]
    · simp only [reach] at hr
      simp [taskStep, reach, hn, hr]
  | named =>
    simp only [reach] at hr
    cases hc : h.createErr
    · simp [taskStep, reach, hc, hr]
    · simp only [taskStep, beginError, hc, if_true]
      split_ifs <;> simp [reach, fails, hc]
  | created =>
    cases hc : h.copyErr with
    | none => simp [taskStep, reach, hc]
    | some n =>
      simp only [taskStep, beginError, hc]
      split_ifs <;> simp [reach, fails, hc]
  | writing msg code => simpa [taskStep, reach] using hr
  | wrote msg code => simp [taskStep, reach]
  | done => simp [taskStep, reach]

/-- A goroutine without a failing call never touches the response writer or the flags. -/
theorem taskStep_quiet (rootDir : GoString) (h : FileHeader) (pc : PC) (sh : Shared)
    (hg : fails h = false) (hr : reach h pc) :
    (taskStep rootDir h pc sh).2.w = sh.w ∧
    (taskStep rootDir h pc sh).2.hashWriting = sh.hashWriting ∧
    (taskStep rootDir h pc sh).2.crashed = sh.crashed := by
  obtain ⟨h1, h2, h3, h4⟩ := fails_false h hg
  cases pc with
  | start => simp [taskStep, h1]
  | opened => simp [taskStep, h2]
  | named => simp [taskStep, h3]
  | created => simp [taskStep, h4]
  | writing msg code => simp [reach, hg] at hr
  | wrote msg code => simp [reach, hg] at hr
  | done => simp [taskStep]

/-- A step changes the file system only at the destination of its own file header, and only
from the positions `named` and `created`. -/
theorem taskStep_fs (rootDir : GoString) (h : FileHeader) (pc : PC) (sh : Shared) :
    (taskStep rootDir h pc sh).2.fs = sh.fs ∨
    ((pc = .named ∨ pc = .created) ∧
      ∃ d, (taskStep rootDir h pc sh).2.fs = sh.fs.put (Join [rootDir, h.Filename]) d) := by
  cases pc with
  | start => left; simp only [taskStep, beginError]; split_ifs <;> rfl
  | opened => left; simp only [taskStep, beginError]; split_ifs <;> rfl
  | named =>
    simp only [taskStep, beginError]
    split_ifs with h1 h2
    · left; rfl
    · left; rfl
    · right; exact ⟨by simp, _, rfl⟩
  | created =>
    right
    refine ⟨Or.inr rfl, ?_⟩
    simp only [taskStep, beginError]
    cases hc : h.copyErr with
    | none => exact ⟨_, rfl⟩
    | some n => simp only []; split_ifs <;> exact ⟨_, rfl⟩
  | writing msg code => left; rfl
  | wrote msg code => left; rfl
  | done => left; rfl

/-- How a step moves the flags: it leaves them alone and neither starts from nor ends inside
a header-map write; or a failing goroutine enters `http.Error`; or a goroutine finishes its
header-map write. -/
theorem taskStep_flags (rootDir : GoString) (h : FileHeader) (pc : PC) (sh : Shared) :
    ((taskStep rootDir h pc sh).2.hashWriting = sh.hashWriting ∧
      (taskStep rootDir h pc sh).2.crashed = sh.crashed ∧
      (∀ m c, pc ≠ .writing m c) ∧ (∀ m c, (taskStep rootDir h pc sh).1 ≠ .writing m c)) ∨
    (fails h = true ∧ (∀ m c, pc ≠ .writing m c) ∧
      (∃ m c, (taskStep rootDir h pc sh).1 = .writing m c) ∧
      (sh.hashWriting = false →
        (taskStep rootDir h pc sh).2.hashWriting = true ∧
        (taskStep rootDir h pc sh).2.crashed = sh.crashed)) ∨
    ((∃ m c, pc = .writing m c) ∧ (taskStep rootDir h pc sh).2.hashWriting = false ∧
      (taskStep rootDir h pc sh).2.crashed = sh.crashed ∧
      (∀ m c, (taskStep rootDir h pc sh).1 ≠ .writing m c)) := by
  cases pc with
  | start =>
    cases ho : h.openErr
    · left; simp [taskStep, ho]
    · right; left
      refine ⟨by simp [fails, ho], by simp, ?_, ?_⟩
      · simp only [taskStep, beginError, ho, if_true]; split_ifs <;> exact ⟨_, _, rfl⟩
      · intro hw; simp [taskStep, beginError, ho, hw]
  | opened =>
    by_cases hn : h.Filename = []
    · right; left
      refine ⟨by simp [fails, hn], by simp, ?_, ?_⟩
      · simp only [taskStep, beginError, hn, if_true]; split_ifs <;> exact ⟨_, _, rfl⟩
      · intro hw; simp [taskStep, beginError, hn, hw]
    · left; simp [taskStep, hn]
  | named =>
    cases hc : h.createErr
    · left; simp [taskStep, hc]
    · right; left
      refine ⟨by simp [fails, hc], by simp, ?_, ?_⟩
      · simp only [taskStep, beginError, hc, if_true]; split_ifs <;> exact ⟨_, _, rfl⟩
      · intro hw; simp [taskStep, beginError, hc, hw]
  | created =>
    cases hc : h.copyErr with
    | none => left; simp [taskStep, hc]
    | some n =>
      right; left
      refine ⟨by simp [fails, hc], by simp, ?_, ?_⟩
      · simp only [taskStep, beginError, hc]; split_ifs <;> exact ⟨_, _, rfl⟩
      · intro hw; simp [taskStep, beginError, hc, hw]
  | writing msg code =>
    right; right
    exact ⟨⟨_, _, rfl⟩, by simp [taskStep], by simp [taskStep], by simp [taskStep]⟩
  | wrote msg code => left; simp [taskStep]
  | done => left; simp [taskStep]

/-- How a step moves the response writer: not at all, by the header writes of `http.Error`,
or by its status and message, after which the goroutine has returned. -/
theorem taskStep_w (rootDir : GoString) (h : FileHeader) (pc : PC) (sh : Shared) :
    (taskStep rootDir h pc sh).2.w = sh.w ∨
    (taskStep rootDir h pc sh).2.w = errorHeaders sh.w ∨
    (∃ m c, pc = .wrote m c ∧
      (taskStep rootDir h pc sh).2.w = Fprintln (sh.w.WriteHeader c) m) := by
  cases pc with
  | start => left; simp only [taskStep, beginError]; split_ifs <;> rfl
  | opened => left; simp only [taskStep, beginError]; split_ifs <;> rfl
  | named => left; simp only [taskStep, beginError]; split_ifs <;> rfl
  | created =>
    left
    simp only [taskStep, beginError]
    cases hc : h.copyErr with
    | none => rfl
    | some n => simp only []; split_ifs <;> rfl
  | writing msg code => right; left; rfl
  | wrote msg code => right; right; exact ⟨_, _, rfl, rfl⟩
  | done => left; rfl

theorem put_files_ne (fs : FS) (p q : GoString) (d : List UInt8) (hne : q ≠ p) :
    (fs.put p d).files q = fs.files q := by
  simp [FS.put, FS.files, Function.update_noteq hne]

theorem put_files_same (fs : FS) (p : GoString) (d : List UInt8) :
    (fs.put p d).files p = some d := by
  simp [FS.put, FS.files]

theorem Reach_init (H : List FileHeader) (w : ResponseWriter) (fs : FS) :
    Reach H (UState.init w fs) := fun _ _ _ => trivial

theorem Reach_step (rootDir : GoString) (H : List FileHeader) (s : UState) (j : Nat)
    (hs : Reach H s) : Reach H (step rootDir H s j) := by
  intro i h hi
  cases hc : s.crashed
  · cases hj : H[j]? with
    | none => rw [step_none _ _ _ _ hj]; exact hs i h hi
    | some hj1 =>
      rw [step_some _ _ _ _ _ hc hj]
      by_cases hij : i = j
      · subst hij
        have : hj1 = h := by rw [hi] at hj; exact (Option.some.inj hj).symm
        subst this
        simp only [Function.update_same]
        exact taskStep_reach _ _ _ _ (hs i _ hi)
      · simp only [Function.update_noteq hij]
        exact hs i h hi
  · rw [step_crashed _ _ _ _ hc]; exact hs i h hi

theorem step_pc_done (rootDir : GoString) (H : List FileHeader) (s : UState) (i j : Nat)
    (hd : s.pc i = .done) : (step rootDir H s j).pc i = .done := by
  cases hc : s.crashed
  · cases hj : H[j]? with
    | none => rw [step_none _ _ _ _ hj]; exact hd
    | some hj1 =>
      rw [step_some _ _ _ _ _ hc hj]
      by_cases hij : i = j
      · subst hij
        simp only [Function.update_same, hd]
        rfl
      · simp only [Function.update_noteq hij]
        exact hd
  · rw [step_crashed _ _ _ _ hc]; exact hd

theorem run_pc_done (rootDir : GoString) (H : List FileHeader) (i : Nat) (sched : List Nat)
    (s : UState) (hd : s.pc i = .done) : (run rootDir H sched s).pc i = .done :=
  run_invariant rootDir H (fun s => s.pc i = .done)
    (fun s j hs => step_pc_done rootDir H s i j hs) sched s hd

theorem step_rank (rootDir : GoString) (H : List FileHeader) (s : UState) (i : Nat)
    (h : FileHeader) (hc : s.crashed = false) (hi : H[i]? = some h) :
    rank ((step rootDir H s i).pc i) ≤ rank (s.pc i) - 1 := by
  rw [step_some _ _ _ _ _ hc hi]
  simp only [Function.update_same]
  exact taskStep_rank _ _ _ _

theorem rank_le_six (pc : PC) : rank pc ≤ 6 := by
  cases pc <;> simp [rank]

theorem rank_zero (pc : PC) (h : rank pc = 0) : pc = .done := by
  cases pc <;> simp [rank] at h ⊢

/-- While the process keeps running, six steps bring a goroutine to its end. -/
theorem run_six_done (rootDir : GoString) (H : List FileHeader) (P : UState → Prop)
    (hstep : ∀ s j, P s → P (step rootDir H s j)) (hrun : ∀ s, P s → s.crashed = false)
    (s : UState) (hs : P s) (i : Nat) (h : FileHeader) (hi : H[i]? = some h) :
    (run rootDir H [i, i, i, i, i, i] s).pc i = .done := by
  apply rank_zero
  have p1 := hstep s i hs
  have p2 := hstep _ i p1
  have p3 := hstep _ i p2
  have p4 := hstep _ i p3
  have p5 := hstep _ i p4
  have h0 := rank_le_six (s.pc i)
  have h1 := step_rank rootDir H s i h (hrun _ hs) hi
  have h2 := step_rank rootDir H _ i h (hrun _ p1) hi
  have h3 := step_rank rootDir H _ i h (hrun _ p2) hi
  have h4 := step_rank rootDir H _ i h (hrun _ p3) hi
  have h5 := step_rank rootDir H _ i h (hrun _ p4) hi
  have h6 := step_rank rootDir H _ i h (hrun _ p5) hi
  simp only [run, List.foldl_cons, List.foldl_nil]
  omega

theorem run_sixes_done (rootDir : GoString) (H : List FileHeader) (P : UState → Prop)
    (hstep : ∀ s j, P s → P (step rootDir H s j)) (hrun : ∀ s, P s → s.crashed = false)
    (l : List Nat) :
    ∀ (s : UState), P s → ∀ (i : Nat) (h : FileHeader), i ∈ l → H[i]? = some h →
      (run rootDir H (l.flatMap (fun i => [i, i, i, i, i, i])) s).pc i = .done := by
  induction l with
  | nil => intro s _ i h hmem; simp at hmem
  | cons a rest ih =>
    intro s hs i h hmem hi
    rw [List.flatMap_cons, run_append]
    by_cases hia : i = a
    · subst hia
      exact run_pc_done _ _ _ _ _ (run_six_done rootDir H P hstep hrun s hs i h hi)
    · have hmem1 : i ∈ rest := by
        rcases List.mem_cons.mp hmem with h1 | h1
        · exact absurd h1 hia
        · exact h1
      exact ih _ (run_invariant rootDir H P hstep _ s hs) i h hmem1 hi

/-- While the process keeps running, every goroutine has returned after the barrier, whatever
ran before. -/
theorem run_drain_done (rootDir : GoString) (H : List FileHeader) (P : UState → Prop)
    (hstep : ∀ s j, P s → P (step rootDir H s j)) (hrun : ∀ s, P s → s.crashed = false)
    (sched : List Nat) (s : UState) (hs : P s) (i : Nat) (h : FileHeader)
    (hi : H[i]? = some h) :
    (run rootDir H (sched ++ drain H.length) s).pc i = .done := by
  rw [run_append]
  have hlt : i < H.length := (List.getElem?_eq_some.mp hi).1
  exact run_sixes_done rootDir H P hstep hrun (List.range H.length) _
    (run_invariant rootDir H P hstep sched s hs) i h (List.mem_range.mpr hlt) hi

/-- A step of a goroutine that has returned changes nothing. -/
theorem step_of_done (rootDir : GoString) (H : List FileHeader) (s : UState) (i : Nat)
    (hd : s.pc i = .done) : step rootDir H s i = s := by
  cases hc : s.crashed
  · cases hi : H[i]? with
    | none => exact step_none _ _ _ _ hi
    | some h =>
      rw [step_some _ _ _ _ _ hc hi, hd]
      simp only [taskStep]
      rw [← hd, Function.update_eq_self]
  · exact step_crashed _ _ _ _ hc

/-- Once every goroutine has returned, the barrier adds nothing: a schedule that already ran
every goroutine to its end gives the state the handler continues with. -/
theorem run_drain_of_done (rootDir : GoString) (H : List FileHeader) (s : UState)
    (hd : ∀ i, i < H.length → s.pc i = .done) : run rootDir H (drain H.length) s = s := by
  have key : ∀ (l : List Nat), (∀ i ∈ l, s.pc i = .done) →
      run rootDir H (l.flatMap (fun i => [i, i, i, i, i, i])) s = s := by
    intro l
    induction l with
    | nil => intro _; rfl
    | cons a rest ih =>
      intro hl
      have ha := hl a (List.mem_cons_self _ _)
      rw [List.flatMap_cons, run_append]
      have h6 : run rootDir H [a, a, a, a, a, a] s = s := by
        simp only [run, List.foldl_cons, List.foldl_nil, step_of_done rootDir H s a ha]
      rw [h6]
      exact ih (fun i hi => hl i (List.mem_cons_of_mem _ hi))
  exact key (List.range H.length) (fun i hi => hd i (List.mem_range.mp hi))

theorem nodup_map_sep {α β : Type} (f : α → β) (l : List α) (hd : (l.map f).Nodup)
    (i j : Nat) (a b : α) (hi : l[i]? = some a) (hj : l[j]? = some b) (hij : i ≠ j) :
    f a ≠ f b := by
  intro heq
  have key := List.nodup_iff_getElem?_ne_getElem?.mp hd
  have hil : i < (l.map f).length := by
    rw [List.length_map]; exact (List.getElem?_eq_some.mp hi).1
  have hjl : j < (l.map f).length := by
    rw [List.length_map]; exact (List.getElem?_eq_some.mp hj).1
  have hmi : (l.map f)[i]? = some (f a) := by simp [hi]
  have hmj : (l.map f)[j]? = some (f b) := by simp [hj]
  rcases Nat.lt_or_gt_of_ne hij with h | h
  · exact key i j h hjl (by rw [hmi, hmj, heq])
  · exact key j i h hil (by rw [hmi, hmj, heq])

theorem Written_step (rootDir : GoString) (H : List FileHeader) (i : Nat) (g : FileHeader)
    (hi : H[i]? = some g) (hg : fails g = false)
    (hsep : ∀ k hk, H[k]? = some hk → k ≠ i → hk.Filename ≠ [] →
      Join [rootDir, hk.Filename] ≠ Join [rootDir, g.Filename])
    (s : UState) (j : Nat) (hs : Written rootDir H i g s) :
    Written rootDir H i g (step rootDir H s j) := by
  obtain ⟨hreach, hcr, hdn⟩ := hs
  refine ⟨Reach_step rootDir H s j hreach, ?_⟩
  obtain ⟨g1, g2, g3, g4⟩ := fails_false g hg
  cases hc : s.crashed
  · cases hj : H[j]? with
    | none => rw [step_none _ _ _ _ hj]; exact ⟨hcr, hdn⟩
    | some hj1 =>
      rw [step_some _ _ _ _ _ hc hj]
      by_cases hji : j = i
      · subst hji
        have : hj1 = g := by rw [hi] at hj; exact (Option.some.inj hj).symm
        subst this
        simp only [Function.update_same]
        have hr := hreach j hj1 hi
        cases hpc : s.pc j with
        | start => simp [taskStep, g1]
        | opened => simp [taskStep, g2]
        | named => simp [taskStep, g3, put_files_same]
        | created =>
          have hold := hcr hpc
          simp [taskStep, g4, put_files_same, hold, overlay]
        | writing msg code => rw [hpc] at hr; simp [reach, hg] at hr
        | wrote msg code => rw [hpc] at hr; simp [reach, hg] at hr
        | done =>
          have hold := hdn hpc
          simp [taskStep, hold]
      · have hij : i ≠ j := fun h => hji h.symm
        simp only [Function.update_noteq hij]
        have hfs : (taskStep rootDir hj1 (s.pc j) s.toShared).2.fs.files
            (Join [rootDir, g.Filename]) = s.fs.files (Join [rootDir, g.Filename]) := by
          rcases taskStep_fs rootDir hj1 (s.pc j) s.toShared with h | ⟨hpc, d, hd⟩
          · rw [h]
          · rw [hd]
            apply put_files_ne
            have hr := hreach j hj1 hj
            have hne : hj1.Filename ≠ [] := by
              rcases hpc with h | h <;> rw [h] at hr
              · exact hr.2
              · exact hr.2.1
            exact (hsep j hj1 hj hji hne).symm
        rw [hfs]
        exact ⟨hcr, hdn⟩
  · rw [step_crashed _ _ _ _ hc]; exact ⟨hcr, hdn⟩

theorem Written_init (rootDir : GoString) (H : List FileHeader) (i : Nat) (g : FileHeader)
    (w : ResponseWriter) (fs : FS) : Written rootDir H i g (UState.init w fs) :=
  ⟨Reach_init H w fs, fun h => by simp [UState.init] at h, fun h => by simp [UState.init] at h⟩

theorem Quiet_step (rootDir : GoString) (H : List FileHeader) (w0 : ResponseWriter)
    (hgood : ∀ h ∈ H, fails h = false) (s : UState) (j : Nat) (hs : Quiet H w0 s) :
    Quiet H w0 (step rootDir H s j) := by
  obtain ⟨hreach, hc, hw, hw0⟩ := hs
  refine ⟨Reach_step rootDir H s j hreach, ?_⟩
  cases hj : H[j]? with
  | none => rw [step_none _ _ _ _ hj]; exact ⟨hc, hw, hw0⟩
  | some hj1 =>
    rw [step_some _ _ _ _ _ hc hj]
    have hmem : hj1 ∈ H := List.mem_iff_getElem?.mpr ⟨j, hj⟩
    obtain ⟨q1, q2, q3⟩ := taskStep_quiet rootDir hj1 (s.pc j) s.toShared (hgood hj1 hmem)
      (hreach j hj1 hj)
    exact ⟨by rw [q3]; exact hc, by rw [q2]; exact hw, by rw [q1]; exact hw0⟩

theorem Quiet_init (H : List FileHeader) (w : ResponseWriter) (fs : FS) :
    Quiet H w (UState.init w fs) :=
  ⟨Reach_init H w fs, rfl, rfl, rfl⟩

/-- When no part fails, the goroutines leave the response writer as they found it and the
process keeps running. -/
theorem run_quiet (rootDir : GoString) (H : List FileHeader)
    (hgood : ∀ h ∈ H, fails h = false) (sched : List Nat) (w : ResponseWriter) (fs : FS) :
    Quiet H w (run rootDir H sched (UState.init w fs)) :=
  run_invariant rootDir H (Quiet H w) (fun s j hs => Quiet_step rootDir H w hgood s j hs)
    sched _ (Quiet_init H w fs)

theorem Solo_step (rootDir : GoString) (H : List FileHeader)
    (hone : ∀ (i j : Nat) (a b : FileHeader), H[i]? = some a → H[j]? = some b →
      fails a = true → fails b = true → i = j)
    (s : UState) (j : Nat) (hs : Solo H s) : Solo H (step rootDir H s j) := by
  obtain ⟨hreach, hc, hbusy⟩ := hs
  refine ⟨Reach_step rootDir H s j hreach, ?_⟩
  cases hj : H[j]? with
  | none => rw [step_none _ _ _ _ hj]; exact ⟨hc, hbusy⟩
  | some hj1 =>
    rw [step_some _ _ _ _ _ hc hj]
    rcases taskStep_flags rootDir hj1 (s.pc j) s.toShared with
      ⟨f1, f2, f3, f4⟩ | ⟨f1, f2, ⟨m, c, f3⟩, f4⟩ | ⟨⟨m, c, f1⟩, f2, f3, f4⟩
    · refine ⟨by rw [f2]; exact hc, fun hw => ?_⟩
      rw [f1] at hw
      obtain ⟨i, h, m, c, hi, hpc⟩ := hbusy hw
      have hij : i ≠ j := by
        intro hij; subst hij; exact f3 m c hpc
      exact ⟨i, h, m, c, hi, by simp only [Function.update_noteq hij]; exact hpc⟩
    · have hfree : s.hashWriting = false := by
        cases hw : s.hashWriting
        · rfl
        · exfalso
          obtain ⟨i, h, m1, c1, hi, hpc⟩ := hbusy hw
          have hr := hreach i h hi
          rw [hpc] at hr
          have hij : i = j := hone i j h hj1 hi hj hr.1 f1
          subst hij
          exact f2 m1 c1 hpc
      obtain ⟨g1, g2⟩ := f4 hfree
      refine ⟨by rw [g2]; exact hc, fun _ => ?_⟩
      exact ⟨j, hj1, m, c, hj, by simp only [Function.update_same]; exact f3⟩
    · refine ⟨by rw [f3]; exact hc, fun hw => ?_⟩
      rw [f2] at hw
      exact absurd hw (by simp)

theorem Solo_init (H : List FileHeader) (w : ResponseWriter) (fs : FS) :
    Solo H (UState.init w fs) :=
  ⟨Reach_init H w fs, rfl, fun h => by simp [UState.init] at h⟩

theorem taskStep_calls_mono (rootDir : GoString) (h : FileHeader) (pc : PC) (sh : Shared)
    (c : Nat) (hc : c ∈ sh.w.calls) : c ∈ (taskStep rootDir h pc sh).2.w.calls := by
  rcases taskStep_w rootDir h pc sh with hw | hw | ⟨m, c1, _, hw⟩
  · rw [hw]; exact hc
  · rw [hw, errorHeaders_calls]; exact hc
  · rw [hw, Fprintln_WriteHeader_calls]; exact List.mem_append_left _ hc

theorem taskStep_done_fails (rootDir : GoString) (h : FileHeader) (pc : PC) (sh : Shared)
    (hr : reach h pc) (hpc : pc ≠ .done)
    (hdone : (taskStep rootDir h pc sh).1 = .done) (hf : fails h = true) :
    (taskStep rootDir h pc sh).2.w.calls ≠ [] := by
  cases pc with
  | start =>
    exfalso
    simp only [taskStep, beginError] at hdone
    split_ifs at hdone
  | opened =>
    exfalso
    simp only [taskStep, beginError] at hdone
    split_ifs at hdone
  | named =>
    exfalso
    simp only [taskStep, beginError] at hdone
    split_ifs at hdone
  | created =>
    exfalso
    cases hc : h.copyErr with
    | none =>
      obtain ⟨r1, r2, r3⟩ := hr
      simp [fails, r1, r2, r3, hc] at hf
    | some n =>
      simp only [taskStep, beginError, hc] at hdone
      split_ifs at hdone
  | writing msg code => simp [taskStep] at hdone
  | wrote msg code => simp [taskStep, Fprintln_WriteHeader_calls]
  | done => exact absurd rfl hpc

theorem Calls_step (rootDir : GoString) (H : List FileHeader) (s : UState) (j : Nat)
    (hs : Calls H s) : Calls H (step rootDir H s j) := by
  obtain ⟨hreach, hcodes, hfail⟩ := hs
  refine ⟨Reach_step rootDir H s j hreach, ?_⟩
  cases hc : s.crashed
  · cases hj : H[j]? with
    | none => rw [step_none _ _ _ _ hj]; exact ⟨hcodes, hfail⟩
    | some hj1 =>
      rw [step_some _ _ _ _ _ hc hj]
      constructor
      · intro c hcmem
        simp only at hcmem
        rcases taskStep_w rootDir hj1 (s.pc j) s.toShared with hw | hw | ⟨m, c1, hpc, hw⟩
        · rw [hw] at hcmem; exact hcodes c hcmem
        · rw [hw, errorHeaders_calls] at hcmem; exact hcodes c hcmem
        · rw [hw, Fprintln_WriteHeader_calls] at hcmem
          rcases List.mem_append.mp hcmem with h1 | h1
          · exact hcodes c h1
          · have hr := hreach j hj1 hj
            rw [hpc] at hr
            rw [List.mem_singleton.mp h1]
            exact hr.2
      · intro i h hi hf hdone
        simp only at hdone ⊢
        by_cases hbefore : s.pc i = .done
        · have hne := hfail i h hi hf hbefore
          obtain ⟨c, hcm⟩ := List.exists_mem_of_ne_nil _ hne
          exact List.ne_nil_of_mem (taskStep_calls_mono rootDir hj1 (s.pc j) s.toShared c hcm)
        · by_cases hji : j = i
          · subst hji
            have : hj1 = h := by rw [hi] at hj; exact (Option.some.inj hj).symm
            subst this
            simp only [Function.update_same] at hdone
            exact taskStep_done_fails rootDir hj1 (s.pc j) s.toShared (hreach j hj1 hi)
              hbefore hdone hf
          · exfalso
            apply hbefore
            have hij : i ≠ j := fun h => hji h.symm
            simpa [Function.update_noteq hij] using hdone
  · rw [step_crashed _ _ _ _ hc]; exact ⟨hcodes, hfail⟩

theorem run_calls (rootDir : GoString) (H : List FileHeader) (sched : List Nat) (fs : FS) :
    Calls H (run rootDir H sched (UState.init .fresh fs)) :=
  run_invariant rootDir H (Calls H) (fun s j hs => Calls_step rootDir H s j hs) sched _
    ⟨Reach_init H _ fs, fun c hc => by simp [UState.init, ResponseWriter.fresh] at hc,
      fun _ _ _ _ h => by simp [UState.init] at h⟩

theorem uploadHandler_post (rootDir : GoString) (sched : List Nat) (w : ResponseWriter)
    (r : Request) (fs : FS) (form : Form) (hm : r.Method = lit "POST")
    (hparse : (ParseMultipartForm r).1.MultipartForm = some form)
    (hrun : (run rootDir (form.File.flatMap (fun field => field.2))
      (sched ++ drain (form.File.flatMap (fun field => field.2)).length)
      (UState.init w fs)).crashed = false) :
    uploadHandler rootDir sched w r fs =
      .ok (Redirect
        (run rootDir (form.File.flatMap (fun field => field.2))
          (sched ++ drain (form.File.flatMap (fun field => field.2)).length)
          (UState.init w fs)).w r (lit "/files") 302,
        (run rootDir (form.File.flatMap (fun field => field.2))
          (sched ++ drain (form.File.flatMap (fun field => field.2)).length)
          (UState.init w fs)).fs) := by
  unfold uploadHandler
  rw [if_neg (by simp [hm])]
  simp only [hparse, hrun, Bool.false_eq_true, if_false]

/-- When no part fails, the upload handler answers with the bare redirect, whatever the
schedule. -/
theorem uploadHandler_of_good (rootDir : GoString) (sched : List Nat) (r : Request) (fs : FS)
    (form : Form) (hm : r.Method = lit "POST")
    (hparse : (ParseMultipartForm r).1.MultipartForm = some form)
    (hgood : ∀ h ∈ form.File.flatMap (fun field => field.2), fails h = false) :
    responseOf (uploadHandler rootDir sched .fresh r fs) =
      .ok (Redirect .fresh r (lit "/files") 302) := by
  have hq := run_quiet rootDir _ hgood
    (sched ++ drain (form.File.flatMap (fun field => field.2)).length) .fresh fs
  rw [uploadHandler_post rootDir sched .fresh r fs form hm hparse hq.2.1, hq.2.2.2]
  rfl

/-! ## Uploads: the claims -/

/-- C1: for a POST whose form parses, whose attached files all have a non-empty filename,
pairwise distinct destinations `Join [rootDir, Filename]` and succeeding open, create and copy
calls, the handler returns, and afterwards every destination holds exactly the bytes of its
part, for every schedule of the goroutines and for all files of all fields. -/
theorem uploadHandler_writes_every_file (rootDir : GoString) (sched : List Nat) (r : Request)
    (fs : FS) (form : Form) (hm : r.Method = lit "POST")
    (hparse : (ParseMultipartForm r).1.MultipartForm = some form)
    (hok : ∀ h ∈ form.File.flatMap (fun field => field.2),
      h.Filename ≠ [] ∧ h.openErr = false ∧ h.createErr = false ∧ h.copyErr = none)
    (hdist : ((form.File.flatMap (fun field => field.2)).map
      (fun h => Join [rootDir, h.Filename])).Nodup) :
    ∃ w1 fs1, uploadHandler rootDir sched .fresh r fs = .ok (w1, fs1) ∧
      ∀ h ∈ form.File.flatMap (fun field => field.2),
        fs1.files (Join [rootDir, h.Filename]) = some h.data := by
  have hgood : ∀ h ∈ form.File.flatMap (fun field => field.2), fails h = false := by
    intro h hmem
    obtain ⟨k1, k2, k3, k4⟩ := hok h hmem
    simp [fails, k1, k2, k3, k4]
  have hq := run_quiet rootDir _ hgood
    (sched ++ drain (form.File.flatMap (fun field => field.2)).length) .fresh fs
  refine ⟨_, _, uploadHandler_post rootDir sched .fresh r fs form hm hparse hq.2.1, ?_⟩
  intro h hmem
  obtain ⟨i, hi⟩ := List.mem_iff_getElem?.mp hmem
  have hdone := run_drain_done rootDir (form.File.flatMap (fun field => field.2))
    (Quiet (form.File.flatMap (fun field => field.2)) .fresh)
    (fun s j hs => Quiet_step rootDir _ _ hgood s j hs) (fun s hs => hs.2.1) sched
    (UState.init .fresh fs) (Quiet_init _ _ fs) i h hi
  have hsep : ∀ k hk, (form.File.flatMap (fun field => field.2))[k]? = some hk → k ≠ i →
      hk.Filename ≠ [] → Join [rootDir, hk.Filename] ≠ Join [rootDir, h.Filename] := by
    intro k hk hkget hki _
    exact nodup_map_sep (fun h => Join [rootDir, h.Filename]) _ hdist k i hk h hkget hi hki
  have hinv := run_invariant rootDir _ (Written rootDir _ i h)
    (fun s j hs => Written_step rootDir _ i h hi (hgood h hmem) hsep s j hs)
    (sched ++ drain (form.File.flatMap (fun field => field.2)).length)
    (UState.init .fresh fs) (Written_init rootDir _ i h .fresh fs)
  exact hinv.2.2 hdone

theorem uploadHandler_writes_every_file_witness :
    (postRequest threeFiles).Method = lit "POST" ∧
    (∀ h ∈ (ReadForm threeFiles).File.flatMap (fun field => field.2),
      h.Filename ≠ [] ∧ h.openErr = false ∧ h.createErr = false ∧ h.copyErr = none) ∧
    (((ReadForm threeFiles).File.flatMap (fun field => field.2)).map
      (fun h => Join [lit "./files", h.Filename])).Nodup ∧
    ∃ w1 fs1, uploadHandler (lit "./files") [2, 0, 1, 1, 0, 2, 2, 0] .fresh
        (postRequest threeFiles) sampleFS = .ok (w1, fs1) ∧
      ∀ h ∈ (ReadForm threeFiles).File.flatMap (fun field => field.2),
        fs1.files (Join [lit "./files", h.Filename]) = some h.data :=
  ⟨by decide, by decide, by decide,
    uploadHandler_writes_every_file (lit "./files") [2, 0, 1, 1, 0, 2, 2, 0]
      (postRequest threeFiles) sampleFS (ReadForm threeFiles) (by decide) rfl (by decide)
      (by decide)⟩

/-- C4 (the code departs from the claim): the parser never hands the handler a file header
with an empty filename, so the check of the goroutine that would report 400 is never
reached; for the body with one part without a file name and one part `b.txt`, the nameless
part is stored as a form value, a single goroutine is started, and for every schedule the
response is the bare 302 redirect, with no 400 written, while `b.txt` is stored. -/
theorem uploadHandler_empty_filename_unreported :
    (∀ (r : Request) (form : Form), r.MultipartForm = none →
      (ParseMultipartForm r).1.MultipartForm = some form →
      ∀ h ∈ form.File.flatMap (fun field => field.2), h.Filename ≠ []) ∧
    (ReadForm unnamedAndNamed).Value = [(lit "file", [lit "lost"])] ∧
    ((ReadForm unnamedAndNamed).File.flatMap (fun field => field.2)).map
      (fun h => h.Filename) = [lit "b.txt"] ∧
    (∀ sched : List Nat,
      responseOf (uploadHandler (lit "./files") sched .fresh (postRequest unnamedAndNamed)
        sampleFS) = .ok (Redirect .fresh (postRequest unnamedAndNamed) (lit "/files") 302)) ∧
    (Redirect .fresh (postRequest unnamedAndNamed) (lit "/files") 302).calls = [302] ∧
    (Redirect .fresh (postRequest unnamedAndNamed) (lit "/files") 302).status = some 302 ∧
    fileAfter (uploadHandler (lit "./files") [] .fresh (postRequest unnamedAndNamed) sampleFS)
      (Join [lit "./files", lit "b.txt"]) = some (lit "world") := by
  refine ⟨?_, by decide, by decide, ?_, ?_, ?_, by decide⟩
  · intro r form hnil hparse h hmem
    cases hb : r.body with
    | none => simp [ParseMultipartForm, hnil, hb] at hparse
    | some parts =>
      have hform : form = ReadForm parts := by
        simp [ParseMultipartForm, hnil, hb] at hparse
        exact hparse.symm
      rw [hform] at hmem
      exact ReadForm_named parts h hmem
  · intro sched
    exact uploadHandler_of_good (lit "./files") sched (postRequest unnamedAndNamed) sampleFS
      (ReadForm unnamedAndNamed) (by decide) rfl (by decide)
  · simp [Redirect_calls, ResponseWriter.fresh]
  · simp [ResponseWriter.status, Redirect_calls, ResponseWriter.fresh]

/-- C5 (amended): for a POST whose form parses and in which at most one part fails, the
handler returns for every schedule, and it calls the 302 redirect to `/files` on the state in
which every goroutine has returned; that redirect is the last header write; it is the
response the client receives (status 302, Location `/files`, a single header write) when no
part fails, and when a part fails the status the client receives is that part's 400 or 500
and the redirect is a later, superfluous write. -/
theorem uploadHandler_redirect_after_barrier (rootDir : GoString) (sched : List Nat)
    (r : Request) (fs : FS) (form : Form) (hm : r.Method = lit "POST")
    (hparse : (ParseMultipartForm r).1.MultipartForm = some form)
    (hone : ∀ (i j : Nat) (a b : FileHeader),
      (form.File.flatMap (fun field => field.2))[i]? = some a →
      (form.File.flatMap (fun field => field.2))[j]? = some b →
      fails a = true → fails b = true → i = j) :
    ∃ s : UState,
      s = run rootDir (form.File.flatMap (fun field => field.2))
        (sched ++ drain (form.File.flatMap (fun field => field.2)).length)
        (UState.init .fresh fs) ∧
      (∀ (i : Nat) (h : FileHeader),
        (form.File.flatMap (fun field => field.2))[i]? = some h → s.pc i = .done) ∧
      uploadHandler rootDir sched .fresh r fs =
        .ok (Redirect s.w r (lit "/files") 302, s.fs) ∧
      (Redirect s.w r (lit "/files") 302).calls.getLast? = some 302 ∧
      ((∀ h ∈ form.File.flatMap (fun field => field.2), fails h = false) →
        (Redirect s.w r (lit "/files") 302).status = some 302 ∧
        (Redirect s.w r (lit "/files") 302).calls = [302] ∧
        (Redirect s.w r (lit "/files") 302).sent.Get (lit "Location") = some (lit "/files")) ∧
      ((∃ h ∈ form.File.flatMap (fun field => field.2), fails h = true) →
        ((Redirect s.w r (lit "/files") 302).status = some 400 ∨
         (Redirect s.w r (lit "/files") 302).status = some 500) ∧
        2 ≤ (Redirect s.w r (lit "/files") 302).calls.length) := by
  have hsolo := run_invariant rootDir (form.File.flatMap (fun field => field.2))
    (Solo (form.File.flatMap (fun field => field.2)))
    (fun s j hs => Solo_step rootDir _ hone s j hs)
    (sched ++ drain (form.File.flatMap (fun field => field.2)).length)
    (UState.init .fresh fs) (Solo_init _ _ fs)
  have hdone : ∀ (i : Nat) (h : FileHeader),
      (form.File.flatMap (fun field => field.2))[i]? = some h →
      (run rootDir (form.File.flatMap (fun field => field.2))
        (sched ++ drain (form.File.flatMap (fun field => field.2)).length)
        (UState.init .fresh fs)).pc i = .done :=
    fun i h hi => run_drain_done rootDir (form.File.flatMap (fun field => field.2))
      (Solo (form.File.flatMap (fun field => field.2)))
      (fun s j hs => Solo_step rootDir _ hone s j hs) (fun s hs => hs.2.1) sched
      (UState.init .fresh fs) (Solo_init _ _ fs) i h hi
  refine ⟨_, rfl, hdone,
    uploadHandler_post rootDir sched .fresh r fs form hm hparse hsolo.2.1, ?_, ?_, ?_⟩
  · rw [Redirect_calls]; simp
  · intro hgood
    rw [(run_quiet rootDir _ hgood _ .fresh fs).2.2.2]
    refine ⟨?_, ?_, Redirect_files_sent _ _ rfl⟩
    · simp [ResponseWriter.status, Redirect_calls, ResponseWriter.fresh]
    · simp [Redirect_calls, ResponseWriter.fresh]
  · rintro ⟨h, hmem, hf⟩
    obtain ⟨i, hi⟩ := List.mem_iff_getElem?.mp hmem
    have hc := run_calls rootDir (form.File.flatMap (fun field => field.2))
      (sched ++ drain (form.File.flatMap (fun field => field.2)).length) fs
    have hne := hc.2.2 i h hi hf (hdone i h hi)
    obtain ⟨c, rest, hcr⟩ := List.exists_cons_of_ne_nil hne
    have hcode := hc.2.1 c (by rw [hcr]; exact List.mem_cons_self _ _)
    simp only [ResponseWriter.status, Redirect_calls, hcr, List.cons_append, List.head?_cons,
      List.length_cons, List.length_append, List.length_singleton]
    refine ⟨?_, by omega⟩
    rcases hcode with h1 | h1 <;> simp [h1]

theorem uploadHandler_redirect_after_barrier_witness :
    (postRequest oneUnreadable).Method = lit "POST" ∧
    (∀ (i j : Nat) (a b : FileHeader),
      ((ReadForm oneUnreadable).File.flatMap (fun field => field.2))[i]? = some a →
      ((ReadForm oneUnreadable).File.flatMap (fun field => field.2))[j]? = some b →
      fails a = true → fails b = true → i = j) ∧
    (statusOf (responseOf
      (uploadHandler (lit "./files") [0, 0] .fresh (postRequest oneUnreadable) sampleFS)) =
        some 400 ∨
     statusOf (responseOf
      (uploadHandler (lit "./files") [0, 0] .fresh (postRequest oneUnreadable) sampleFS)) =
        some 500) := by
  have hone : ∀ (i j : Nat) (a b : FileHeader),
      ((ReadForm oneUnreadable).File.flatMap (fun field => field.2))[i]? = some a →
      ((ReadForm oneUnreadable).File.flatMap (fun field => field.2))[j]? = some b →
      fails a = true → fails b = true → i = j := by
    intro i j a b hi hj _ _
    have hlen : ((ReadForm oneUnreadable).File.flatMap (fun field => field.2)).length = 1 := by
      decide
    have h1 := (List.getElem?_eq_some.mp hi).1
    have h2 := (List.getElem?_eq_some.mp hj).1
    omega
  refine ⟨by decide, hone, ?_⟩
  obtain ⟨s, _, _, heq, _, _, hbad⟩ :=
    uploadHandler_redirect_after_barrier (lit "./files") [0, 0] (postRequest oneUnreadable)
      sampleFS (ReadForm oneUnreadable) (by decide) rfl hone
  rw [heq]
  exact (hbad (by decide)).1

/-- C5 (as stated, refuted): when the only attached file cannot be opened, the status the
client receives is the goroutine's 400, not the 302 of the redirect. -/
theorem uploadHandler_failure_masks_redirect :
    statusOf (responseOf
      (uploadHandler (lit "./files") [] .fresh (postRequest oneUnreadable) sampleFS)) =
      some 400 ∧
    statusOf (responseOf
      (uploadHandler (lit "./files") [] .fresh (postRequest oneUnreadable) sampleFS)) ≠
      some 302 := by
  decide

/-- C8 (the code departs from the claim): for one and the same request with two failing
parts, no single responder decides the response. The goroutines call `http.Error` on the
shared writer without synchronisation: when the first goroutine runs first the client gets
400, when the second runs first it gets 500, with the bodies in different order and three
header writes on the writer; and when the second goroutine enters `http.Error` while the
first is still writing the header map, the runtime aborts the process and no response is
sent. The same holds for two files that cannot be created: three header writes, or the
abort of the process. -/
theorem uploadHandler_response_depends_on_schedule :
    statusOf (responseOf
      (uploadHandler (lit "./files") [] .fresh (postRequest twoFailures) sampleFS)) =
      some 400 ∧
    statusOf (responseOf
      (uploadHandler (lit "./files") [1, 1, 1, 1, 1] .fresh (postRequest twoFailures)
        sampleFS)) = some 500 ∧
    bodyOf (responseOf
      (uploadHandler (lit "./files") [] .fresh (postRequest twoFailures) sampleFS)) ≠
    bodyOf (responseOf
      (uploadHandler (lit "./files") [1, 1, 1, 1, 1] .fresh (postRequest twoFailures)
        sampleFS)) ∧
    callsOf (responseOf
      (uploadHandler (lit "./files") [] .fresh (postRequest twoFailures) sampleFS)) =
      [400, 500, 302] ∧
    panicOf (uploadHandler (lit "./files") [0, 1, 1, 1] .fresh (postRequest twoFailures)
      sampleFS) = some .concurrentMapWrites ∧
    callsOf (responseOf
      (uploadHandler (lit "./files") [] .fresh (postRequest twoUncreatable) sampleFS)) =
      [500, 500, 302] ∧
    panicOf (uploadHandler (lit "./files") [0, 0, 0, 1, 1, 1] .fresh
      (postRequest twoUncreatable) sampleFS) = some .concurrentMapWrites := by
  decide

end Gostatic
